import Mathlib

/-!
Verification of the `qtree` quadtree library (quadtree.h, quadtree_collector.h,
quadtree_math.h) against its natural-language specification.

The C++ code is templated over the payload type `T`, a 3-vector type, a
bounding-box type and a container; the tests instantiate it at
`QuadTree<int, vector3, bbox3, std::vector, std::allocator>`.  We embed that
instantiation: payloads are `Int` (with `0` the empty/falsy value, matching
`element_ = {}` and `if (element)`), coordinates are `ℚ` (the float
computations of the source — divisions by powers of two and affine
combinations — are exact at the algebraic level captured by the claims), and
the node container is a Lean `List` indexed like the flat `std::vector`.
Child pointers become `Option Nat` indices into that list; `nullptr` is
`none`.  Recursions that the C++ performs over the pointer graph are given a
fuel parameter; a tree of depth `d` needs fuel `d`, which is what the
top-level entry points pass.
-/

namespace QtreeSpec

/-- 3-component vector (`qtree::vector3`), components exact rationals. -/
structure Vec3 where
  x : ℚ
  y : ℚ
  z : ℚ
deriving DecidableEq, Repr

instance : Inhabited Vec3 := ⟨⟨0, 0, 0⟩⟩

/-- Axis-aligned box (`qtree::bbox3`): stored min and max corners, exactly as
constructed, with no normalisation (mirrors `Eigen::AlignedBox3f(min,max)`). -/
structure BBox3 where
  bmin : Vec3
  bmax : Vec3
deriving DecidableEq, Repr

instance : Inhabited BBox3 := ⟨⟨default, default⟩⟩

/-- Size of a box (`bbox3::get_size`, `m_max - m_min`). -/
def BBox3.get_size (b : BBox3) : Vec3 :=
  ⟨b.bmax.x - b.bmin.x, b.bmax.y - b.bmin.y, b.bmax.z - b.bmin.z⟩

/-- A node of the quadtree (`QuadTree::Node<T>` at `T = int`): the stored
element (default `0` = empty), the four child pointers (default `nullptr`),
and the bounding box. -/
structure QNode where
  element : Int := 0
  child0 : Option Nat := none
  child1 : Option Nat := none
  child2 : Option Nat := none
  child3 : Option Nat := none
  bbox : BBox3 := default
deriving DecidableEq, Repr

instance : Inhabited QNode := ⟨{}⟩

/-- `Node::get_child_at(index)`: child pointer by index 0..3. -/
def QNode.get_child_at (n : QNode) (i : Nat) : Option Nat :=
  match i with
  | 0 => n.child0
  | 1 => n.child1
  | 2 => n.child2
  | _ => n.child3

/-- `Node::has_children()`: true iff the first child pointer is non-null. -/
def QNode.has_children (n : QNode) : Bool :=
  (n.get_child_at 0).isSome

/-- `QuadTree::calculate_number_nodes(level)`:
`((1 << (2 * level)) - 1) / 3`, the node count of levels `0..level-1`. -/
def calculate_number_nodes (level : Nat) : Nat :=
  ((1 <<< (2 * level)) - 1) / 3

/-- `QuadTree::calculate_node_index(level, col, row)`:
`calculate_number_nodes(level) + (row << level) + col`. -/
def calculate_node_index (level col row : Nat) : Nat :=
  calculate_number_nodes level + (row <<< level) + col

/-! The tree proper: state, initialization, lookup. -/

/-- State of a `QuadTree` (the template instantiated at `T = int`):
flat node storage, root box, depth, base cell size.  A default-constructed
tree has empty storage and depth `0`. -/
structure QuadTree where
  node_array : List QNode := []
  root_bbox : BBox3 := default
  tree_depth : Nat := 0
  base_node_size : Vec3 := default
deriving DecidableEq, Repr

instance : Inhabited QuadTree := ⟨{}⟩

/-- `std::vector::resize(n)`: keep the first `n` elements, append
default-constructed nodes when growing. -/
def resizeNodes (arr : List QNode) (n : Nat) : List QNode :=
  arr.take n ++ List.replicate (n - arr.length) default

/-- Update the node at slot `i` in place (mirrors mutation through a
pointer/reference into `node_array_`; out-of-range writes are dropped,
which never happens on the in-contract executions the claims quantify
over). -/
def setNode (arr : List QNode) (i : Nat) (f : QNode → QNode) : List QNode :=
  arr.set i (f (arr.getD i default))

/-- The node stored at slot `i` (dereferencing a pointer into
`node_array_`; the default node stands for the out-of-range reads that the
source's contracts exclude). -/
def nodeAtSlot (arr : List QNode) (i : Nat) : QNode :=
  arr.getD i default

/-- The read-only tree parameters `Node::initialize` consumes through its
`tree` pointer: `tree_depth_`, `root_bbox_`, `base_node_size_`. -/
structure TreeCtx where
  depth : Nat
  rootB : BBox3
  base : Vec3
deriving DecidableEq, Repr

/-- The bounding box `Node::initialize` computes for grid position
`(level, col, row)`:
`level_factor = 2^(depth-1-level)`, x from `col`, z from `row`, y spanning
the root box. -/
def nodeBBoxOf (t : TreeCtx) (level col row : Nat) : BBox3 :=
  let level_factor : ℚ := 2 ^ (t.depth - 1 - level)
  let tmin := t.rootB.bmin
  let tmax := t.rootB.bmax
  { bmin := ⟨tmin.x + col * level_factor * t.base.x,
             tmin.y,
             tmin.z + row * level_factor * t.base.z⟩,
    bmax := ⟨tmin.x + (col + 1) * level_factor * t.base.x,
             tmax.y,
             tmin.z + (row + 1) * level_factor * t.base.z⟩ }

/-- The base cell size `QuadTree::initialize` derives: the root X/Z
extents divided by `2^(depth-1)`, Y extent unchanged. -/
def baseVec (box : BBox3) (d : Nat) : Vec3 :=
  ⟨box.get_size.x / (2 ^ (d - 1) : ℚ), box.get_size.y,
    box.get_size.z / (2 ^ (d - 1) : ℚ)⟩

/-- The tree parameters a tree initialized with `(box, d)` presents to its
nodes. -/
def ctxOf (box : BBox3) (d : Nat) : TreeCtx :=
  ⟨d, box, baseVec box d⟩

/-- `Node::initialize(tree, level, col, row)` acting on the node at slot
`idx`: store the bounding box; then, when `level+1 < depth`, write the four
child pointers (quadrant order `(2c,2r), (2c+1,2r), (2c,2r+1), (2c+1,2r+1)`)
and recursively initialize each child right after linking it.  The element
slot is never touched.  `fuel` bounds the recursion depth; `depth - level`
suffices. -/
def initNode (t : TreeCtx) : Nat → List QNode → Nat → Nat → Nat → Nat → List QNode
  | 0, arr, _, _, _, _ => arr
  | fuel + 1, arr, idx, level, col, row =>
      let arr1 := setNode arr idx (fun n => { n with bbox := nodeBBoxOf t level col row })
      if level + 1 < t.depth then
        let i0 := calculate_node_index (level + 1) (2 * col) (2 * row)
        let a0 := setNode arr1 idx (fun n => { n with child0 := some i0 })
        let b0 := initNode t fuel a0 i0 (level + 1) (2 * col) (2 * row)
        let i1 := calculate_node_index (level + 1) (2 * col + 1) (2 * row)
        let a1 := setNode b0 idx (fun n => { n with child1 := some i1 })
        let b1 := initNode t fuel a1 i1 (level + 1) (2 * col + 1) (2 * row)
        let i2 := calculate_node_index (level + 1) (2 * col) (2 * row + 1)
        let a2 := setNode b1 idx (fun n => { n with child2 := some i2 })
        let b2 := initNode t fuel a2 i2 (level + 1) (2 * col) (2 * row + 1)
        let i3 := calculate_node_index (level + 1) (2 * col + 1) (2 * row + 1)
        let a3 := setNode b2 idx (fun n => { n with child3 := some i3 })
        initNode t fuel a3 i3 (level + 1) (2 * col + 1) (2 * row + 1)
      else arr1

/-- `QuadTree::initialize(box, depth)`: record depth and root box, derive
`base_node_size_` by dividing the root X/Z extents by `2^(depth-1)`,
resize the storage to `calculate_number_nodes(depth)` slots and recursively
initialize node 0 as the root. -/
def QuadTree.initTree (t : QuadTree) (box : BBox3) (depth : Nat) : QuadTree :=
  let base_dimension : ℚ := 2 ^ (depth - 1)
  let sz := box.get_size
  let base : Vec3 := ⟨sz.x / base_dimension, sz.y, sz.z / base_dimension⟩
  let num := calculate_number_nodes depth
  let arr := resizeNodes t.node_array num
  let ctx : TreeCtx := ⟨depth, box, base⟩
  { node_array := initNode ctx depth arr 0 0 0 0,
    root_bbox := box,
    tree_depth := depth,
    base_node_size := base }

/-- A tree built by `initialize` from a default-constructed `QuadTree`. -/
def freshTree (box : BBox3) (depth : Nat) : QuadTree :=
  QuadTree.initTree {} box depth

/-- `QuadTree::get_node_by_index(index)` (out-of-range access, a fatal
contract violation in the source, is totalised to a default node). -/
def QuadTree.get_node_by_index (t : QuadTree) (index : Nat) : QNode :=
  nodeAtSlot t.node_array index

/-- `Node::set_element` on the node at `index` of the tree's storage. -/
def QuadTree.set_element (t : QuadTree) (index : Nat) (e : Int) : QuadTree :=
  { t with node_array := setNode t.node_array index (fun n => { n with element := e }) }

/-! Containment search (`Node::find_containment_node_recursive`). -/

/-- The rejection test of `find_containment_node_recursive`: true when the
query box is not fully contained in `nb` (any min below or max above, with
strict comparisons, across X, Y, Z). -/
def rejectB (nb q : BBox3) : Bool :=
  q.bmin.x < nb.bmin.x || q.bmax.x > nb.bmax.x ||
  q.bmin.y < nb.bmin.y || q.bmax.y > nb.bmax.y ||
  q.bmin.z < nb.bmin.z || q.bmax.z > nb.bmax.z

/-- First non-`none` of two results (the early `return` in the child loop). -/
def firstSome (a b : Option Nat) : Option Nat :=
  match a with
  | some x => some x
  | none => b

/-- `Node::find_containment_node_recursive(check_box)` on the node stored at
slot `idx`: reject unless the node's box contains the query; otherwise try
the children in order 0,1,2,3 and return the first non-null answer; fall
back to the node itself.  The result is the slot index of the answer
(`nullptr` is `none`). -/
def findRec (arr : List QNode) (q : BBox3) : Nat → Nat → Option Nat
  | 0, _ => none
  | fuel + 1, idx =>
      let n := nodeAtSlot arr idx
      if rejectB n.bbox q then none
      else if n.has_children then
        firstSome (findRec arr q fuel ((n.get_child_at 0).getD 0))
          (firstSome (findRec arr q fuel ((n.get_child_at 1).getD 0))
            (firstSome (findRec arr q fuel ((n.get_child_at 2).getD 0))
              (firstSome (findRec arr q fuel ((n.get_child_at 3).getD 0))
                (some idx))))
      else some idx

/-- `QuadTree::find_containment_node(box)`: delegate to the root node.  A
tree of depth `d` is handled completely by fuel `d`. -/
def QuadTree.find_containment_node (t : QuadTree) (q : BBox3) : Option Nat :=
  findRec t.node_array q t.tree_depth 0

/-! The collector (`QuadTreeCollector`).  The clip-status classification is
an opaque capability of the box type (`bbox3::clipstatus(projection)`), so
the traversals are embedded over an arbitrary classification function
`cs : BBox3 → ClipStatus` standing for `fun b => b.clipstatus(projection)`. -/

/-- `bbox3::ClipStatus`. -/
inductive ClipStatus where
  | outside
  | inside
  | clipped
deriving DecidableEq, Repr

/-- `QuadTreeCollector::recurse_collect_all_nodes`: append the node's
element when present (non-zero), then recurse into the children in order
0,1,2,3 when present. -/
def collectAllRec (arr : List QNode) : Nat → Nat → List Int → List Int
  | 0, _, acc => acc
  | fuel + 1, idx, acc =>
      let n := nodeAtSlot arr idx
      let acc1 := if n.element ≠ 0 then acc ++ [n.element] else acc
      if n.has_children then
        collectAllRec arr fuel ((n.get_child_at 3).getD 0)
          (collectAllRec arr fuel ((n.get_child_at 2).getD 0)
            (collectAllRec arr fuel ((n.get_child_at 1).getD 0)
              (collectAllRec arr fuel ((n.get_child_at 0).getD 0) acc1)))
      else acc1

/-- `QuadTreeCollector::recurse_collect_by_frustum`: classify the node's box;
Outside prunes the subtree, Inside delegates to the unconditional full
collection, Clipped appends the node's present element and recurses into the
children. -/
def collectFrustumRec (arr : List QNode) (cs : BBox3 → ClipStatus) :
    Nat → Nat → List Int → List Int
  | 0, _, acc => acc
  | fuel + 1, idx, acc =>
      let n := nodeAtSlot arr idx
      match cs n.bbox with
      | ClipStatus.outside => acc
      | ClipStatus.inside => collectAllRec arr (fuel + 1) idx acc
      | ClipStatus.clipped =>
          let acc1 := if n.element ≠ 0 then acc ++ [n.element] else acc
          if n.has_children then
            collectFrustumRec arr cs fuel ((n.get_child_at 3).getD 0)
              (collectFrustumRec arr cs fuel ((n.get_child_at 2).getD 0)
                (collectFrustumRec arr cs fuel ((n.get_child_at 1).getD 0)
                  (collectFrustumRec arr cs fuel ((n.get_child_at 0).getD 0) acc1)))
          else acc1

/-- `QuadTreeCollector::collect_by_frustum`: clear the output collection,
then recurse from the start node. -/
def collect_by_frustum (arr : List QNode) (cs : BBox3 → ClipStatus)
    (fuel idx : Nat) (collected : List Int) : List Int :=
  collectFrustumRec arr cs fuel idx []

/-! The line/segment slab test (`bbox3::test_intersection`), embedded over
`ℚ`.  The running interval `[t_near, t_far]` starts at `[-∞, +∞]`,
represented with `none`. -/

/-- A finite parametric segment (`qtree::line3`): origin and direction,
covering parameters `t ∈ [0, 1]`. -/
structure Line3 where
  origin : Vec3
  dir : Vec3
deriving DecidableEq, Repr

/-- `kRelTolerance = 1e-6f`. -/
def kRelTolerance : ℚ := 1 / 1000000

/-- One axis of the slab test: `bmin, bmax` the box's slab, `o, d` the
segment's origin and direction components, `tn, tf` the running interval
(`none` = the corresponding infinity).  Returns `none` on early
no-intersection exit. -/
def slabAxis (bmin bmax o d : ℚ) (tn tf : Option ℚ) :
    Option (Option ℚ × Option ℚ) :=
  if |d| < kRelTolerance then
    if o < bmin ∨ o > bmax then none else some (tn, tf)
  else
    let t1 := (bmin - o) / d
    let t2 := (bmax - o) / d
    let t1' := if t1 > t2 then t2 else t1
    let t2' := if t1 > t2 then t1 else t2
    let tn' := match tn with | none => t1' | some v => max v t1'
    let tf' := match tf with | none => t2' | some v => min v t2'
    if tn' > tf' then none else some (some tn', some tf')

/-- `bbox3::test_intersection(line)`: run the slab test over the three axes
in order X, Y, Z, then check that the narrowed interval is non-empty and
overlaps the segment's parameter range `[0, 1]`. -/
def test_intersection (b : BBox3) (line : Line3) : Bool :=
  match slabAxis b.bmin.x b.bmax.x line.origin.x line.dir.x none none with
  | none => false
  | some (tn1, tf1) =>
    match slabAxis b.bmin.y b.bmax.y line.origin.y line.dir.y tn1 tf1 with
    | none => false
    | some (tn2, tf2) =>
      match slabAxis b.bmin.z b.bmax.z line.origin.z line.dir.z tn2 tf2 with
      | none => false
      | some (tn, tf) =>
          let hle : Bool := match tn, tf with
            | some a, some b => a ≤ b
            | _, _ => true
          let hfarneg : Bool := match tf with
            | some v => v < 0
            | none => false
          let hneargt : Bool := match tn with
            | some v => v > 1
            | none => false
          hle && !(hfarneg || hneargt)

/-- `QuadTreeCollector::recurse_line_intersect`: when the segment intersects
the node's box, append the node's present element and recurse into the
children in order 0,1,2,3. -/
def collectLineRec (arr : List QNode) (line : Line3) :
    Nat → Nat → List Int → List Int
  | 0, _, acc => acc
  | fuel + 1, idx, acc =>
      let n := nodeAtSlot arr idx
      if test_intersection n.bbox line then
        let acc1 := if n.element ≠ 0 then acc ++ [n.element] else acc
        if n.has_children then
          collectLineRec arr line fuel ((n.get_child_at 3).getD 0)
            (collectLineRec arr line fuel ((n.get_child_at 2).getD 0)
              (collectLineRec arr line fuel ((n.get_child_at 1).getD 0)
                (collectLineRec arr line fuel ((n.get_child_at 0).getD 0) acc1)))
        else acc1
      else acc

/-- `QuadTreeCollector::collect_by_line_intersect`: clear the output
collection, then recurse from the start node. -/
def collect_by_line_intersect (arr : List QNode) (line : Line3)
    (fuel idx : Nat) (collected : List Int) : List Int :=
  collectLineRec arr line fuel idx []

/-! Specification-side descriptions of the traversals, used to state what
the collectors compute: the pre-order enumeration of the nodes reachable
from a start slot, and the pre-order enumeration of root-to-node paths. -/

/-- Pre-order listing of the slots of a subtree (node first, then the four
children in order), mirroring the shape of the collector recursions. -/
def subtreeList (arr : List QNode) : Nat → Nat → List Nat
  | 0, _ => []
  | fuel + 1, idx =>
      let n := nodeAtSlot arr idx
      idx :: (if n.has_children then
        subtreeList arr fuel ((n.get_child_at 0).getD 0) ++
        subtreeList arr fuel ((n.get_child_at 1).getD 0) ++
        subtreeList arr fuel ((n.get_child_at 2).getD 0) ++
        subtreeList arr fuel ((n.get_child_at 3).getD 0)
      else [])

/-- The present payload of the node at slot `j`, if any. -/
def payloadOf (arr : List QNode) (j : Nat) : Option Int :=
  let e := (nodeAtSlot arr j).element
  if e ≠ 0 then some e else none

/-- Pre-order listing of the paths of a subtree: each entry is the chain of
slots from a node back up to the start of the traversal (node first). -/
def pathsRec (arr : List QNode) : Nat → Nat → List Nat → List (List Nat)
  | 0, _, _ => []
  | fuel + 1, idx, anc =>
      let n := nodeAtSlot arr idx
      let cur := idx :: anc
      cur :: (if n.has_children then
        pathsRec arr fuel ((n.get_child_at 0).getD 0) cur ++
        pathsRec arr fuel ((n.get_child_at 1).getD 0) cur ++
        pathsRec arr fuel ((n.get_child_at 2).getD 0) cur ++
        pathsRec arr fuel ((n.get_child_at 3).getD 0) cur
      else [])

/-- A root-to-node chain passes when every node on it passes the slab
test against the segment. -/
def chainOK (arr : List QNode) (line : Line3) (p : List Nat) : Bool :=
  p.all (fun j => test_intersection (nodeAtSlot arr j).bbox line)

/-- The payload the line traversal owes to a path: the present payload of
the path's own node (its head). -/
def headPayload (arr : List QNode) (p : List Nat) : Option Int :=
  p.head?.bind (payloadOf arr)

/-- Declarative description of `collect_by_line_intersect`: the present
payloads, in pre-order, of the nodes whose whole chain of ancestors (up to
the start node, inclusive) passes the slab test. -/
def linePayloads (arr : List QNode) (line : Line3) (fuel idx : Nat) : List Int :=
  ((pathsRec arr fuel idx []).filter (chainOK arr line)).filterMap
    (headPayload arr)

/-- Validity of a grid position: level below the tree depth, column and row
inside the level's grid. -/
def validLCR (d l c r : Nat) : Prop :=
  l < d ∧ c < 2 ^ l ∧ r < 2 ^ l

instance validLCR.instDecidable (d l c r : Nat) : Decidable (validLCR d l c r) := by
  unfold validLCR
  infer_instance

/-- Grid position `(l', c', r')` lies in the subtree rooted at `(l, c, r)`:
shifting its column and row down to level `l` recovers `(c, r)`. -/
def inSubtree (l c r l' c' r' : Nat) : Prop :=
  l ≤ l' ∧ c' / 2 ^ (l' - l) = c ∧ r' / 2 ^ (l' - l) = r

/-- The four child pointers of `nd` are exactly the quadrant slots of
`(l, c, r)`, in the fixed order of `Node::initialize`'s loop. -/
def childrenQuad (nd : QNode) (l c r : Nat) : Prop :=
  nd.child0 = some (calculate_node_index (l + 1) (2 * c) (2 * r)) ∧
  nd.child1 = some (calculate_node_index (l + 1) (2 * c + 1) (2 * r)) ∧
  nd.child2 = some (calculate_node_index (l + 1) (2 * c) (2 * r + 1)) ∧
  nd.child3 = some (calculate_node_index (l + 1) (2 * c + 1) (2 * r + 1))

/-- Two nodes carry the same four child pointers. -/
def childrenEq (nd nd0 : QNode) : Prop :=
  nd.child0 = nd0.child0 ∧ nd.child1 = nd0.child1 ∧
  nd.child2 = nd0.child2 ∧ nd.child3 = nd0.child3

/-- What `Node::initialize` guarantees for the slot of grid position
`(l, c, r)` of a store that was `arr0` before the call and `out` after it:
the element is untouched, the box is the derived one, interior nodes point
at their quadrants, and nodes of the last level keep their previous child
pointers. -/
def initializedAt (t : TreeCtx) (arr0 out : List QNode) (l c r : Nat) : Prop :=
  (nodeAtSlot out (calculate_node_index l c r)).element =
    (nodeAtSlot arr0 (calculate_node_index l c r)).element ∧
  (nodeAtSlot out (calculate_node_index l c r)).bbox = nodeBBoxOf t l c r ∧
  (l + 1 < t.depth →
    childrenQuad (nodeAtSlot out (calculate_node_index l c r)) l c r) ∧
  (l + 1 = t.depth →
    childrenEq (nodeAtSlot out (calculate_node_index l c r))
      (nodeAtSlot arr0 (calculate_node_index l c r)))

/-! Small concrete instances used to exercise the theorems. -/

/-- A 5-slot node store shaped like a depth-2 tree over the box
`[-4,4] × [-2,2] × [-4,4]`, every node holding a payload. -/
def demoArr : List QNode :=
  [ { element := 10, child0 := some 1, child1 := some 2, child2 := some 3,
      child3 := some 4, bbox := ⟨⟨-4, -2, -4⟩, ⟨4, 2, 4⟩⟩ },
    { element := 20, bbox := ⟨⟨-4, -2, -4⟩, ⟨0, 2, 0⟩⟩ },
    { element := 30, bbox := ⟨⟨0, -2, -4⟩, ⟨4, 2, 0⟩⟩ },
    { element := 40, bbox := ⟨⟨-4, -2, 0⟩, ⟨0, 2, 4⟩⟩ },
    { element := 50, bbox := ⟨⟨0, -2, 0⟩, ⟨4, 2, 4⟩⟩ } ]

/-- A segment well outside `demoArr`'s root box. -/
def demoLineOut : Line3 := ⟨⟨10, 0, 10⟩, ⟨1, 0, 0⟩⟩

/-- A segment through the center of `demoArr`'s root box. -/
def demoLineIn : Line3 := ⟨⟨-1, 0, -1⟩, ⟨2, 0, 2⟩⟩

/-! Arithmetic facts about the index formulas. -/

theorem calculate_number_nodes_eq (level : Nat) :
    calculate_number_nodes level = (4 ^ level - 1) / 3 := by
  unfold calculate_number_nodes
  rw [Nat.shiftLeft_eq, one_mul, pow_mul]
  norm_num

theorem three_dvd_pow_four_sub_one (level : Nat) : 3 ∣ 4 ^ level - 1 := by
  induction level with
  | zero => simp
  | succ n ih =>
      obtain ⟨k, hk⟩ := ih
      have h1 : 1 ≤ 4 ^ n := Nat.one_le_pow _ _ (by norm_num)
      refine ⟨4 ^ n + k, ?_⟩
      have : 4 ^ (n + 1) = 4 * 4 ^ n := by ring
      omega

theorem three_mul_calculate_number_nodes (level : Nat) :
    3 * calculate_number_nodes level = 4 ^ level - 1 := by
  rw [calculate_number_nodes_eq]
  exact Nat.mul_div_cancel' (three_dvd_pow_four_sub_one level)

theorem calculate_number_nodes_succ (level : Nat) :
    calculate_number_nodes (level + 1) =
      calculate_number_nodes level + 4 ^ level := by
  have h1 := three_mul_calculate_number_nodes level
  have h2 := three_mul_calculate_number_nodes (level + 1)
  have h3 : 4 ^ (level + 1) = 4 * 4 ^ level := by ring
  have h4 : 1 ≤ 4 ^ level := Nat.one_le_pow _ _ (by norm_num)
  omega

theorem calculate_number_nodes_strict_mono {a b : Nat} (h : a < b) :
    calculate_number_nodes a < calculate_number_nodes b := by
  induction b with
  | zero => omega
  | succ n ih =>
      rw [calculate_number_nodes_succ]
      have h4 : 1 ≤ 4 ^ n := Nat.one_le_pow _ _ (by norm_num)
      rcases Nat.lt_succ_iff_lt_or_eq.mp h with h' | h'
      · have := ih h'
        omega
      · subst h'
        omega

theorem calculate_number_nodes_mono {a b : Nat} (h : a ≤ b) :
    calculate_number_nodes a ≤ calculate_number_nodes b := by
  rcases Nat.lt_or_ge a b with h' | h'
  · exact Nat.le_of_lt (calculate_number_nodes_strict_mono h')
  · have hab : a = b := le_antisymm h h'
    rw [hab]

/-- Range of the index formula at a fixed level. -/
theorem calculate_node_index_range {level col row : Nat}
    (hc : col < 2 ^ level) (hr : row < 2 ^ level) :
    calculate_number_nodes level ≤ calculate_node_index level col row ∧
      calculate_node_index level col row < calculate_number_nodes (level + 1) := by
  unfold calculate_node_index
  rw [Nat.shiftLeft_eq, calculate_number_nodes_succ]
  constructor
  · omega
  · have hmul : row * 2 ^ level + col < 4 ^ level := by
      have hsm : (row + 1) * 2 ^ level = row * 2 ^ level + 2 ^ level := by ring
      have h1 : row * 2 ^ level + col < (row + 1) * 2 ^ level := by omega
      have h2 : (row + 1) * 2 ^ level ≤ 2 ^ level * 2 ^ level :=
        Nat.mul_le_mul_right _ hr
      have h3 : 2 ^ level * 2 ^ level = 4 ^ level := by
        have h4 : (4 : Nat) = 2 ^ 2 := by norm_num
        rw [h4, ← pow_mul, ← pow_add]
        ring_nf
      omega
    omega

/-- Injectivity of the index formula over valid triples. -/
theorem calculate_node_index_inj {l c r l' c' r' : Nat}
    (hc : c < 2 ^ l) (hr : r < 2 ^ l) (hc' : c' < 2 ^ l') (hr' : r' < 2 ^ l')
    (heq : calculate_node_index l c r = calculate_node_index l' c' r') :
    l = l' ∧ c = c' ∧ r = r' := by
  have hl : l = l' := by
    by_contra hne
    rcases Nat.lt_or_ge l l' with h | h
    · have h1 := (calculate_node_index_range hc hr).2
      have h2 := (calculate_node_index_range hc' hr').1
      have h3 : calculate_number_nodes (l + 1) ≤ calculate_number_nodes l' :=
        calculate_number_nodes_mono h
      omega
    · have h' : l' < l := by omega
      have h1 := (calculate_node_index_range hc' hr').2
      have h2 := (calculate_node_index_range hc hr).1
      have h3 : calculate_number_nodes (l' + 1) ≤ calculate_number_nodes l :=
        calculate_number_nodes_mono h'
      omega
  subst hl
  unfold calculate_node_index at heq
  rw [Nat.shiftLeft_eq] at heq
  have hkey : r * 2 ^ l + c = r' * 2 ^ l + c' := by omega
  have hr2 : r = r' := by
    by_contra hne
    rcases Nat.lt_or_ge r r' with h | h
    · have h5 : (r + 1) * 2 ^ l ≤ r' * 2 ^ l := Nat.mul_le_mul_right _ h
      have h6 : (r + 1) * 2 ^ l = r * 2 ^ l + 2 ^ l := by ring
      omega
    · have h' : r' < r := by omega
      have h5 : (r' + 1) * 2 ^ l ≤ r * 2 ^ l := Nat.mul_le_mul_right _ h'
      have h6 : (r' + 1) * 2 ^ l = r' * 2 ^ l + 2 ^ l := by ring
      omega
  subst hr2
  constructor
  · rfl
  · omega

/-- Surjectivity onto the level's block of indices. -/
theorem calculate_node_index_surj {level k : Nat}
    (h1 : calculate_number_nodes level ≤ k)
    (h2 : k < calculate_number_nodes (level + 1)) :
    ∃ c r, c < 2 ^ level ∧ r < 2 ^ level ∧ calculate_node_index level c r = k := by
  rw [calculate_number_nodes_succ] at h2
  set off := k - calculate_number_nodes level with hoff
  have hofflt : off < 4 ^ level := by omega
  have hpow : 2 ^ level * 2 ^ level = 4 ^ level := by
    have h4 : (4 : Nat) = 2 ^ 2 := by norm_num
    rw [h4, ← pow_mul, ← pow_add]
    ring_nf
  have hpos : 0 < 2 ^ level := Nat.pos_pow_of_pos _ (by norm_num)
  refine ⟨off % 2 ^ level, off / 2 ^ level, ?_, ?_, ?_⟩
  · exact Nat.mod_lt _ hpos
  · rw [Nat.div_lt_iff_lt_mul hpos]
    omega
  · unfold calculate_node_index
    rw [Nat.shiftLeft_eq]
    have hdm := Nat.div_add_mod off (2 ^ level)
    have hcm : off / 2 ^ level * 2 ^ level = 2 ^ level * (off / 2 ^ level) :=
      Nat.mul_comm _ _
    omega

/-! List helper lemmas for slot updates. -/

theorem length_setNode (arr : List QNode) (i : Nat) (f : QNode → QNode) :
    (setNode arr i f).length = arr.length := by
  simp [setNode]

theorem getD_setNode_self {arr : List QNode} {i : Nat} (f : QNode → QNode)
    (h : i < arr.length) :
    (setNode arr i f).getD i default = f (arr.getD i default) := by
  simp [setNode, List.getD_eq_getElem?_getD, List.getElem?_set_self', h,
    List.getElem?_eq_getElem]

theorem getD_setNode_ne {arr : List QNode} {i j : Nat} (f : QNode → QNode)
    (h : i ≠ j) :
    (setNode arr i f).getD j default = arr.getD j default := by
  simp [setNode, List.getD_eq_getElem?_getD, List.getElem?_set_ne h]

theorem length_resizeNodes (arr : List QNode) (n : Nat) :
    (resizeNodes arr n).length = n := by
  simp [resizeNodes]
  omega

theorem getD_resizeNodes (arr : List QNode) (n j : Nat) (h : j < n) :
    (resizeNodes arr n).getD j default =
      if j < arr.length then arr.getD j default else default := by
  by_cases hj : j < arr.length
  · simp only [hj, if_true]
    rw [resizeNodes, List.getD_eq_getElem?_getD,
      List.getElem?_append_left (by simp; omega),
      List.getElem?_take_of_lt h, List.getD_eq_getElem?_getD]
  · simp only [hj, if_false]
    rw [resizeNodes, List.getD_eq_getElem?_getD,
      List.getElem?_append_right (by simp; omega)]
    rw [List.getElem?_replicate]
    have hn : ¬ n ≤ arr.length := by omega
    have hmin : n ⊓ arr.length = arr.length := by
      simp [Nat.min_def, hn]
    have hlt : j - n ⊓ arr.length < n - arr.length := by
      rw [hmin]
      omega
    simp [hlt]

/-! Characterisation of the collector traversals. -/

/-- The unconditional collection equals the pre-order payload enumeration
appended to the incoming accumulator. -/
theorem collectAllRec_eq (arr : List QNode) (fuel : Nat) :
    ∀ idx acc, collectAllRec arr fuel idx acc =
      acc ++ (subtreeList arr fuel idx).filterMap (payloadOf arr) := by
  induction fuel with
  | zero => intro idx acc; simp [collectAllRec, subtreeList]
  | succ fuel ih =>
      intro idx acc
      simp only [collectAllRec, subtreeList]
      by_cases hch : (nodeAtSlot arr idx).has_children
      · simp only [hch, if_true]
        rw [ih, ih, ih, ih]
        by_cases he : (nodeAtSlot arr idx).element ≠ 0
        · simp [payloadOf, he, List.filterMap_cons, List.filterMap_append,
            List.append_assoc]
        · simp [payloadOf, he, List.filterMap_cons, List.filterMap_append,
            List.append_assoc]
      · simp only [hch, if_false]
        by_cases he : (nodeAtSlot arr idx).element ≠ 0
        · simp [payloadOf, he, List.filterMap_cons]
        · simp [payloadOf, he, List.filterMap_cons]

/-- The frustum traversal is order-compatible with the unconditional one:
whatever it emits is a sublist of the full pre-order collection, for any
pair of accumulators related the same way. -/
theorem collectFrustumRec_sublist (arr : List QNode) (cs : BBox3 → ClipStatus)
    (fuel : Nat) :
    ∀ idx acc acc2, List.Sublist acc acc2 →
      List.Sublist (collectFrustumRec arr cs fuel idx acc)
        (collectAllRec arr fuel idx acc2) := by
  induction fuel with
  | zero => intro idx acc acc2 h; simpa [collectFrustumRec, collectAllRec] using h
  | succ fuel ih =>
      intro idx acc acc2 h
      have hself : List.Sublist
          (if (nodeAtSlot arr idx).element ≠ 0 then
            acc ++ [(nodeAtSlot arr idx).element] else acc)
          (if (nodeAtSlot arr idx).element ≠ 0 then
            acc2 ++ [(nodeAtSlot arr idx).element] else acc2) := by
        by_cases he : (nodeAtSlot arr idx).element ≠ 0
        · simpa [he] using
            h.append (List.Sublist.refl [(nodeAtSlot arr idx).element])
        · simpa [he] using h
      cases hcs : cs (nodeAtSlot arr idx).bbox with
      | outside =>
          simp only [collectFrustumRec, hcs]
          rw [collectAllRec_eq]
          exact h.trans (List.sublist_append_left _ _)
      | inside =>
          simp only [collectFrustumRec, hcs]
          rw [collectAllRec_eq, collectAllRec_eq]
          exact h.append (List.Sublist.refl _)
      | clipped =>
          simp only [collectFrustumRec, collectAllRec, hcs]
          by_cases hch : (nodeAtSlot arr idx).has_children
          · simp only [hch, if_true]
            exact ih _ _ _ (ih _ _ _ (ih _ _ _ (ih _ _ _ hself)))
          · simp only [hch, if_false]
            exact hself

/-- The line traversal is order-compatible with the unconditional one. -/
theorem collectLineRec_sublist (arr : List QNode) (line : Line3)
    (fuel : Nat) :
    ∀ idx acc acc2, List.Sublist acc acc2 →
      List.Sublist (collectLineRec arr line fuel idx acc)
        (collectAllRec arr fuel idx acc2) := by
  induction fuel with
  | zero => intro idx acc acc2 h; simpa [collectLineRec, collectAllRec] using h
  | succ fuel ih =>
      intro idx acc acc2 h
      have hself : List.Sublist
          (if (nodeAtSlot arr idx).element ≠ 0 then
            acc ++ [(nodeAtSlot arr idx).element] else acc)
          (if (nodeAtSlot arr idx).element ≠ 0 then
            acc2 ++ [(nodeAtSlot arr idx).element] else acc2) := by
        by_cases he : (nodeAtSlot arr idx).element ≠ 0
        · simpa [he] using
            h.append (List.Sublist.refl [(nodeAtSlot arr idx).element])
        · simpa [he] using h
      by_cases ht : test_intersection (nodeAtSlot arr idx).bbox line
      · simp only [collectLineRec, ht, if_true, collectAllRec]
        by_cases hch : (nodeAtSlot arr idx).has_children
        · simp only [hch, if_true]
          exact ih _ _ _ (ih _ _ _ (ih _ _ _ (ih _ _ _ hself)))
        · simp only [hch, if_false]
          exact hself
      · simp only [collectLineRec, ht, if_false]
        rw [collectAllRec_eq]
        exact h.trans (List.sublist_append_left _ _)

/-- Splitting off the head of the appended chain. -/
theorem list_append_cons_shift {p pre : List Nat} {c i : Nat} {anc : List Nat}
    (h : p = pre ++ (c :: i :: anc)) : ∃ pre2, p = pre2 ++ (i :: anc) :=
  ⟨pre ++ [c], by simp [h]⟩

/-- Every path produced by `pathsRec` extends the start of the traversal:
it ends in `idx :: anc`. -/
theorem pathsRec_shape (arr : List QNode) (fuel : Nat) :
    ∀ idx anc p, p ∈ pathsRec arr fuel idx anc →
      ∃ pre, p = pre ++ (idx :: anc) := by
  induction fuel with
  | zero => intro idx anc p hp; simp [pathsRec] at hp
  | succ fuel ih =>
      intro idx anc p hp
      simp only [pathsRec, List.mem_cons] at hp
      rcases hp with hp | hp
      · exact ⟨[], hp⟩
      · by_cases hch : (nodeAtSlot arr idx).has_children
        · simp only [hch, if_true, List.mem_append] at hp
          rcases hp with ((hp | hp) | hp) | hp
          all_goals
            obtain ⟨pre, hpre⟩ := ih _ _ _ hp
            exact list_append_cons_shift hpre
        · simp [hch] at hp

/-- The line traversal, relative to an already-accepted ancestor chain,
collects exactly the payloads of the chain-accepted paths below it. -/
theorem collectLineRec_paths (arr : List QNode) (line : Line3) (fuel : Nat) :
    ∀ idx anc acc,
      (∀ j ∈ anc, test_intersection (nodeAtSlot arr j).bbox line = true) →
      collectLineRec arr line fuel idx acc =
        acc ++ ((pathsRec arr fuel idx anc).filter (chainOK arr line)).filterMap
          (headPayload arr) := by
  induction fuel with
  | zero => intro idx anc acc hanc; simp [collectLineRec, pathsRec]
  | succ fuel ih =>
      intro idx anc acc hanc
      by_cases ht : test_intersection (nodeAtSlot arr idx).bbox line
      · have hcur : ∀ j ∈ idx :: anc,
            test_intersection (nodeAtSlot arr j).bbox line = true := by
          intro j hj
          rcases List.mem_cons.mp hj with hj | hj
          · rw [hj]; exact ht
          · exact hanc j hj
        have hchain : chainOK arr line (idx :: anc) = true := by
          simp only [chainOK, List.all_eq_true]
          exact hcur
        simp only [collectLineRec, pathsRec, ht, if_true]
        by_cases hch : (nodeAtSlot arr idx).has_children
        · simp only [hch, if_true]
          rw [ih _ (idx :: anc) _ hcur, ih _ (idx :: anc) _ hcur,
            ih _ (idx :: anc) _ hcur, ih _ (idx :: anc) _ hcur]
          rw [List.filter_cons_of_pos hchain]
          by_cases he : (nodeAtSlot arr idx).element ≠ 0
          · simp [he, headPayload, payloadOf, List.filterMap_cons,
              List.filter_append, List.filterMap_append, List.append_assoc]
          · simp [he, headPayload, payloadOf, List.filterMap_cons,
              List.filter_append, List.filterMap_append, List.append_assoc]
        · simp only [hch, if_false]
          rw [List.filter_cons_of_pos hchain]
          by_cases he : (nodeAtSlot arr idx).element ≠ 0
          · simp [he, headPayload, payloadOf, List.filterMap_cons]
          · simp [he, headPayload, payloadOf, List.filterMap_cons]
      · have hkill : ∀ p ∈ pathsRec arr (fuel + 1) idx anc,
            ¬ chainOK arr line p = true := by
          intro p hp hOK
          obtain ⟨pre, hpre⟩ := pathsRec_shape arr (fuel + 1) idx anc p hp
          simp only [chainOK, List.all_eq_true] at hOK
          have := hOK idx (by simp [hpre])
          rw [this] at ht
          exact ht rfl
        simp only [collectLineRec, ht, if_false]
        rw [List.filter_eq_nil_iff.mpr hkill]
        simp

/-! Subtree-coordinate arithmetic. -/

theorem inSubtree_refl (l c r : Nat) : inSubtree l c r l c r := by
  refine ⟨le_refl _, ?_, ?_⟩ <;> simp

theorem inSubtree_self_of_lt {l c r l' c' r' : Nat}
    (h : inSubtree l c r l' c' r') (hlt : l' < l + 1) :
    l' = l ∧ c' = c ∧ r' = r := by
  obtain ⟨h1, h2, h3⟩ := h
  have hl : l' = l := by omega
  subst hl
  simp at h2 h3
  exact ⟨rfl, h2, h3⟩

theorem div_pow_succ_eq (c' k : Nat) : c' / 2 ^ (k + 1) = c' / 2 ^ k / 2 := by
  rw [Nat.div_div_eq_div_mul, pow_succ]

theorem inSubtree_child {l c r l' c' r' : Nat}
    (h : inSubtree l c r l' c' r') (hgt : l + 1 ≤ l') :
    ∃ a b, (a = 2 * c ∨ a = 2 * c + 1) ∧ (b = 2 * r ∨ b = 2 * r + 1) ∧
      inSubtree (l + 1) a b l' c' r' := by
  obtain ⟨h1, h2, h3⟩ := h
  refine ⟨c' / 2 ^ (l' - (l + 1)), r' / 2 ^ (l' - (l + 1)), ?_, ?_, ?_⟩
  · have hk : l' - l = (l' - (l + 1)) + 1 := by omega
    rw [hk, div_pow_succ_eq] at h2
    omega
  · have hk : l' - l = (l' - (l + 1)) + 1 := by omega
    rw [hk, div_pow_succ_eq] at h3
    omega
  · exact ⟨hgt, rfl, rfl⟩

theorem inSubtree_of_child {l c r a b l' c' r' : Nat}
    (ha : a = 2 * c ∨ a = 2 * c + 1) (hb : b = 2 * r ∨ b = 2 * r + 1)
    (h : inSubtree (l + 1) a b l' c' r') : inSubtree l c r l' c' r' := by
  obtain ⟨h1, h2, h3⟩ := h
  have hk : l' - l = (l' - (l + 1)) + 1 := by omega
  refine ⟨by omega, ?_, ?_⟩
  · rw [hk, div_pow_succ_eq, h2]
    omega
  · rw [hk, div_pow_succ_eq, h3]
    omega

theorem inSubtree_child_det {l a b a2 b2 l' c' r' : Nat}
    (h1 : inSubtree (l + 1) a b l' c' r')
    (h2 : inSubtree (l + 1) a2 b2 l' c' r') : a = a2 ∧ b = b2 := by
  obtain ⟨-, e1, e2⟩ := h1
  obtain ⟨-, f1, f2⟩ := h2
  omega

theorem validLCR_child {d l c r : Nat} (h : validLCR d l c r)
    (hd : l + 1 < d) {a b : Nat}
    (ha : a = 2 * c ∨ a = 2 * c + 1) (hb : b = 2 * r ∨ b = 2 * r + 1) :
    validLCR d (l + 1) a b := by
  obtain ⟨h1, h2, h3⟩ := h
  have hp : 2 ^ (l + 1) = 2 * 2 ^ l := by rw [pow_succ]; ring
  exact ⟨hd, by omega, by omega⟩

/-- A valid grid index is inside an array of full size. -/
theorem calcIdx_lt_total {d l c r : Nat} (h : validLCR d l c r) :
    calculate_node_index l c r < calculate_number_nodes d := by
  obtain ⟨h1, h2, h3⟩ := h
  have := (calculate_node_index_range h2 h3).2
  have hm : calculate_number_nodes (l + 1) ≤ calculate_number_nodes d :=
    calculate_number_nodes_mono h1
  omega

/-! Access through `nodeAtSlot` after slot updates. -/

theorem nodeAtSlot_setNode_self {arr : List QNode} {i : Nat}
    (f : QNode → QNode) (h : i < arr.length) :
    nodeAtSlot (setNode arr i f) i = f (nodeAtSlot arr i) := by
  unfold nodeAtSlot
  exact getD_setNode_self f h

theorem nodeAtSlot_setNode_ne {arr : List QNode} {i j : Nat}
    (f : QNode → QNode) (h : i ≠ j) :
    nodeAtSlot (setNode arr i f) j = nodeAtSlot arr j := by
  unfold nodeAtSlot
  exact getD_setNode_ne f h

/-! The effect of `Node::initialize` on the node store. -/

/-- `initNode` preserves the length of the store. -/
theorem initNode_length (t : TreeCtx) :
    ∀ fuel arr idx level col row,
      (initNode t fuel arr idx level col row).length = arr.length := by
  intro fuel
  induction fuel with
  | zero => intro arr idx level col row; rfl
  | succ fuel ih =>
      intro arr idx level col row
      simp only [initNode]
      by_cases hd : level + 1 < t.depth
      · simp only [hd, if_true]
        rw [ih, length_setNode, ih, length_setNode, ih, length_setNode, ih,
          length_setNode, length_setNode]
      · simp only [hd, if_false]
        rw [length_setNode]

/-- Frame property: `initNode` at `(level, col, row)` leaves every slot
that is not a valid grid index of that subtree unchanged. -/
theorem initNode_frame (t : TreeCtx) :
    ∀ fuel level col row arr j,
      validLCR t.depth level col row →
      (∀ l' c' r', validLCR t.depth l' c' r' →
        inSubtree level col row l' c' r' → j ≠ calculate_node_index l' c' r') →
      nodeAtSlot (initNode t fuel arr (calculate_node_index level col row)
          level col row) j = nodeAtSlot arr j := by
  intro fuel
  induction fuel with
  | zero => intro level col row arr j hv hj; rfl
  | succ fuel ih =>
      intro level col row arr j hv hj
      have hself : j ≠ calculate_node_index level col row :=
        hj level col row hv (inSubtree_refl level col row)
      simp only [initNode]
      by_cases hd : level + 1 < t.depth
      · simp only [hd, if_true]
        have hstep : ∀ (a : Nat) (ha : a = 2 * col ∨ a = 2 * col + 1)
            (b : Nat) (hb : b = 2 * row ∨ b = 2 * row + 1) (arr2 : List QNode),
            nodeAtSlot (initNode t fuel arr2
              (calculate_node_index (level + 1) a b) (level + 1) a b) j =
              nodeAtSlot arr2 j := by
          intro a ha b hb arr2
          exact ih (level + 1) a b arr2 j
            (validLCR_child hv hd ha hb)
            (fun l' c' r' hv' hin' =>
              hj l' c' r' hv' (inSubtree_of_child ha hb hin'))
        rw [hstep _ (Or.inr rfl) _ (Or.inr rfl), nodeAtSlot_setNode_ne _ (Ne.symm hself),
          hstep _ (Or.inl rfl) _ (Or.inr rfl), nodeAtSlot_setNode_ne _ (Ne.symm hself),
          hstep _ (Or.inr rfl) _ (Or.inl rfl), nodeAtSlot_setNode_ne _ (Ne.symm hself),
          hstep _ (Or.inl rfl) _ (Or.inl rfl), nodeAtSlot_setNode_ne _ (Ne.symm hself),
          nodeAtSlot_setNode_ne _ (Ne.symm hself)]
      · simp only [hd, if_false]
        rw [nodeAtSlot_setNode_ne _ (Ne.symm hself)]

/-- Transport of `initializedAt` along equal slot contents. -/
theorem initializedAt_congr {t : TreeCtx} {arr0 arr0' out out' : List QNode}
    {l c r : Nat}
    (h1 : nodeAtSlot out (calculate_node_index l c r) =
      nodeAtSlot out' (calculate_node_index l c r))
    (h2 : nodeAtSlot arr0 (calculate_node_index l c r) =
      nodeAtSlot arr0' (calculate_node_index l c r))
    (h : initializedAt t arr0 out l c r) : initializedAt t arr0' out' l c r := by
  unfold initializedAt at *
  rw [← h1, ← h2]
  exact h

/-- Main property of `Node::initialize`: after the call on a full-size
store, every grid position of the initialized subtree satisfies
`initializedAt` with respect to the store before the call. -/
theorem initNode_props (t : TreeCtx) :
    ∀ fuel level col row arr,
      t.depth ≤ level + fuel →
      validLCR t.depth level col row →
      arr.length = calculate_number_nodes t.depth →
      ∀ l' c' r', validLCR t.depth l' c' r' →
        inSubtree level col row l' c' r' →
        initializedAt t arr
          (initNode t fuel arr (calculate_node_index level col row) level col row)
          l' c' r' := by
  intro fuel
  induction fuel with
  | zero =>
      intro level col row arr hfuel hv hlen l' c' r' hv' hin
      exact absurd hv.1 (by omega)
  | succ fuel ih =>
      intro level col row arr hfuel hv hlen l' c' r' hv' hin
      have hsetselfidx : ∀ (arr2 : List QNode) (f : QNode → QNode),
          arr2.length = calculate_number_nodes t.depth →
          nodeAtSlot (setNode arr2 (calculate_node_index level col row) f)
              (calculate_node_index level col row) =
            f (nodeAtSlot arr2 (calculate_node_index level col row)) :=
        fun arr2 f hl2 =>
          nodeAtSlot_setNode_self f (by rw [hl2]; exact calcIdx_lt_total hv)
      simp only [initNode]
      by_cases hd : level + 1 < t.depth
      · simp only [hd, if_true]
        set arr1 := setNode arr (calculate_node_index level col row)
          (fun n => { n with bbox := nodeBBoxOf t level col row }) with harr1
        set a0 := setNode arr1 (calculate_node_index level col row)
          (fun n => { n with
            child0 := some (calculate_node_index (level + 1) (2 * col) (2 * row)) }) with ha0
        set b0 := initNode t fuel a0
          (calculate_node_index (level + 1) (2 * col) (2 * row))
          (level + 1) (2 * col) (2 * row) with hb0
        set a1 := setNode b0 (calculate_node_index level col row)
          (fun n => { n with
            child1 := some (calculate_node_index (level + 1) (2 * col + 1) (2 * row)) }) with ha1
        set b1 := initNode t fuel a1
          (calculate_node_index (level + 1) (2 * col + 1) (2 * row))
          (level + 1) (2 * col + 1) (2 * row) with hb1
        set a2 := setNode b1 (calculate_node_index level col row)
          (fun n => { n with
            child2 := some (calculate_node_index (level + 1) (2 * col) (2 * row + 1)) }) with ha2
        set b2 := initNode t fuel a2
          (calculate_node_index (level + 1) (2 * col) (2 * row + 1))
          (level + 1) (2 * col) (2 * row + 1) with hb2
        set a3 := setNode b2 (calculate_node_index level col row)
          (fun n => { n with
            child3 := some (calculate_node_index (level + 1) (2 * col + 1) (2 * row + 1)) }) with ha3
        have hlen1 : arr1.length = calculate_number_nodes t.depth := by
          rw [harr1, length_setNode, hlen]
        have hlena0 : a0.length = calculate_number_nodes t.depth := by
          rw [ha0, length_setNode, hlen1]
        have hlenb0 : b0.length = calculate_number_nodes t.depth := by
          rw [hb0, initNode_length, hlena0]
        have hlena1 : a1.length = calculate_number_nodes t.depth := by
          rw [ha1, length_setNode, hlenb0]
        have hlenb1 : b1.length = calculate_number_nodes t.depth := by
          rw [hb1, initNode_length, hlena1]
        have hlena2 : a2.length = calculate_number_nodes t.depth := by
          rw [ha2, length_setNode, hlenb1]
        have hlenb2 : b2.length = calculate_number_nodes t.depth := by
          rw [hb2, initNode_length, hlena2]
        have hlena3 : a3.length = calculate_number_nodes t.depth := by
          rw [ha3, length_setNode, hlenb2]
        have hidxskip : ∀ (a2' b2' : Nat),
            (a2' = 2 * col ∨ a2' = 2 * col + 1) →
            (b2' = 2 * row ∨ b2' = 2 * row + 1) → ∀ arr2,
            nodeAtSlot (initNode t fuel arr2
                (calculate_node_index (level + 1) a2' b2') (level + 1) a2' b2')
              (calculate_node_index level col row) =
              nodeAtSlot arr2 (calculate_node_index level col row) := by
          intro a2' b2' ha2' hb2' arr2
          refine initNode_frame t fuel (level + 1) a2' b2' arr2 _
            (validLCR_child hv hd ha2' hb2') ?_
          intro l'' c'' r'' hv'' hin'' heq
          obtain ⟨e1, -, -⟩ := calculate_node_index_inj hv.2.1 hv.2.2
            hv''.2.1 hv''.2.2 heq
          have := hin''.1
          omega
        by_cases hl' : l' < level + 1
        · -- the node itself
          obtain ⟨e1, e2, e3⟩ := inSubtree_self_of_lt hin hl'
          rw [e1, e2, e3]
          simp only [initializedAt, childrenQuad, childrenEq]
          rw [hidxskip (2 * col + 1) (2 * row + 1) (Or.inr rfl) (Or.inr rfl),
            ha3, hsetselfidx b2 _ hlenb2, hb2,
            hidxskip (2 * col) (2 * row + 1) (Or.inl rfl) (Or.inr rfl),
            ha2, hsetselfidx b1 _ hlenb1, hb1,
            hidxskip (2 * col + 1) (2 * row) (Or.inr rfl) (Or.inl rfl),
            ha1, hsetselfidx b0 _ hlenb0, hb0,
            hidxskip (2 * col) (2 * row) (Or.inl rfl) (Or.inl rfl),
            ha0, hsetselfidx arr1 _ hlen1, harr1, hsetselfidx arr _ hlen]
          exact ⟨rfl, rfl, fun h => ⟨rfl, rfl, rfl, rfl⟩,
            fun h => absurd h (by omega)⟩
        · -- a node of one of the four child subtrees
          obtain ⟨a, b, ha, hb, hin'⟩ := inSubtree_child hin (by omega)
          have hne_idx : calculate_node_index l' c' r' ≠
              calculate_node_index level col row := by
            intro heq
            obtain ⟨e1, -, -⟩ := calculate_node_index_inj hv'.2.1 hv'.2.2
              hv.2.1 hv.2.2 heq
            have := hin'.1
            omega
          have hsetne : ∀ (arr2 : List QNode) (f : QNode → QNode),
              nodeAtSlot (setNode arr2 (calculate_node_index level col row) f)
                  (calculate_node_index l' c' r') =
                nodeAtSlot arr2 (calculate_node_index l' c' r') :=
            fun arr2 f => nodeAtSlot_setNode_ne f (Ne.symm hne_idx)
          have hsib : ∀ (a2' b2' : Nat),
              (a2' = 2 * col ∨ a2' = 2 * col + 1) →
              (b2' = 2 * row ∨ b2' = 2 * row + 1) →
              ¬(a2' = a ∧ b2' = b) → ∀ arr2,
              nodeAtSlot (initNode t fuel arr2
                  (calculate_node_index (level + 1) a2' b2') (level + 1) a2' b2')
                (calculate_node_index l' c' r') =
                nodeAtSlot arr2 (calculate_node_index l' c' r') := by
            intro a2' b2' ha2' hb2' hne arr2
            refine initNode_frame t fuel (level + 1) a2' b2' arr2 _
              (validLCR_child hv hd ha2' hb2') ?_
            intro l'' c'' r'' hv'' hin'' heq
            obtain ⟨e1, e2, e3⟩ := calculate_node_index_inj hv'.2.1 hv'.2.2
              hv''.2.1 hv''.2.2 heq
            subst e1; subst e2; subst e3
            obtain ⟨d1, d2⟩ := inSubtree_child_det hin'' hin'
            exact hne ⟨d1, d2⟩
          rcases ha with rfl | rfl <;> rcases hb with rfl | rfl
          · -- child 0: (2*col, 2*row)
            refine initializedAt_congr ?_ ?_
              (ih (level + 1) (2 * col) (2 * row) a0 (by omega)
                (validLCR_child hv hd (Or.inl rfl) (Or.inl rfl)) hlena0
                l' c' r' hv' hin')
            · rw [← hb0]
              symm
              rw [hsib (2 * col + 1) (2 * row + 1) (Or.inr rfl) (Or.inr rfl)
                  (by omega), ha3, hsetne, hb2,
                hsib (2 * col) (2 * row + 1) (Or.inl rfl) (Or.inr rfl)
                  (by omega), ha2, hsetne, hb1,
                hsib (2 * col + 1) (2 * row) (Or.inr rfl) (Or.inl rfl)
                  (by omega), ha1, hsetne]
            · rw [ha0, hsetne, harr1, hsetne]
          · -- child 2: (2*col, 2*row+1)
            refine initializedAt_congr ?_ ?_
              (ih (level + 1) (2 * col) (2 * row + 1) a2 (by omega)
                (validLCR_child hv hd (Or.inl rfl) (Or.inr rfl)) hlena2
                l' c' r' hv' hin')
            · rw [← hb2]
              symm
              rw [hsib (2 * col + 1) (2 * row + 1) (Or.inr rfl) (Or.inr rfl)
                  (by omega), ha3, hsetne]
            · rw [ha2, hsetne, hb1,
                hsib (2 * col + 1) (2 * row) (Or.inr rfl) (Or.inl rfl)
                  (by omega), ha1, hsetne, hb0,
                hsib (2 * col) (2 * row) (Or.inl rfl) (Or.inl rfl)
                  (by omega), ha0, hsetne, harr1, hsetne]
          · -- child 1: (2*col+1, 2*row)
            refine initializedAt_congr ?_ ?_
              (ih (level + 1) (2 * col + 1) (2 * row) a1 (by omega)
                (validLCR_child hv hd (Or.inr rfl) (Or.inl rfl)) hlena1
                l' c' r' hv' hin')
            · rw [← hb1]
              symm
              rw [hsib (2 * col + 1) (2 * row + 1) (Or.inr rfl) (Or.inr rfl)
                  (by omega), ha3, hsetne, hb2,
                hsib (2 * col) (2 * row + 1) (Or.inl rfl) (Or.inr rfl)
                  (by omega), ha2, hsetne]
            · rw [ha1, hsetne, hb0,
                hsib (2 * col) (2 * row) (Or.inl rfl) (Or.inl rfl)
                  (by omega), ha0, hsetne, harr1, hsetne]
          · -- child 3: (2*col+1, 2*row+1)
            refine initializedAt_congr ?_ ?_
              (ih (level + 1) (2 * col + 1) (2 * row + 1) a3 (by omega)
                (validLCR_child hv hd (Or.inr rfl) (Or.inr rfl)) hlena3
                l' c' r' hv' hin')
            · rfl
            · rw [ha3, hsetne, hb2,
                hsib (2 * col) (2 * row + 1) (Or.inl rfl) (Or.inr rfl)
                  (by omega), ha2, hsetne, hb1,
                hsib (2 * col + 1) (2 * row) (Or.inr rfl) (Or.inl rfl)
                  (by omega), ha1, hsetne, hb0,
                hsib (2 * col) (2 * row) (Or.inl rfl) (Or.inl rfl)
                  (by omega), ha0, hsetne, harr1, hsetne]
      · simp only [hd, if_false]
        obtain ⟨e1, e2, e3⟩ := inSubtree_self_of_lt hin
          (by have h1 := hv'.1; omega)
        rw [e1, e2, e3]
        simp only [initializedAt, childrenQuad, childrenEq]
        rw [hsetselfidx arr _ hlen]
        exact ⟨rfl, rfl, fun h => absurd h (by omega),
          fun h => ⟨rfl, rfl, rfl, rfl⟩⟩


theorem calcIdx_zero : calculate_node_index 0 0 0 = 0 := rfl

theorem inSubtree_root {l c r : Nat} (hc : c < 2 ^ l) (hr : r < 2 ^ l) :
    inSubtree 0 0 0 l c r := by
  refine ⟨Nat.zero_le _, ?_, ?_⟩
  · rw [Nat.sub_zero]
    exact Nat.div_eq_of_lt hc
  · rw [Nat.sub_zero]
    exact Nat.div_eq_of_lt hr

/-- Every slot of a full-size store is the slot of exactly one valid grid
position. -/
theorem index_decompose {d j : Nat} (h : j < calculate_number_nodes d) :
    ∃ l c r, validLCR d l c r ∧ calculate_node_index l c r = j := by
  induction d with
  | zero =>
      exact absurd h (by simp [calculate_number_nodes])
  | succ d ihd =>
      by_cases hj : j < calculate_number_nodes d
      · obtain ⟨l, c, r, hv, he⟩ := ihd hj
        exact ⟨l, c, r, ⟨by have := hv.1; omega, hv.2.1, hv.2.2⟩, he⟩
      · obtain ⟨c, r, hc, hr, he⟩ :=
          calculate_node_index_surj (by omega) h
        exact ⟨d, c, r, ⟨by omega, hc, hr⟩, he⟩

/-- Characterisation of `QuadTree::initialize`: the scalar state fields,
the storage size, and the per-node contents relative to the resized
storage. -/
theorem initTree_char (t0 : QuadTree) (box : BBox3) (d : Nat) (hd : 1 ≤ d) :
    (t0.initTree box d).tree_depth = d ∧
    (t0.initTree box d).root_bbox = box ∧
    (t0.initTree box d).base_node_size = baseVec box d ∧
    (t0.initTree box d).node_array.length = calculate_number_nodes d ∧
    ∀ l c r, validLCR d l c r →
      initializedAt (ctxOf box d)
        (resizeNodes t0.node_array (calculate_number_nodes d))
        (t0.initTree box d).node_array l c r := by
  refine ⟨rfl, rfl, rfl, ?_, ?_⟩
  · show (initNode _ _ _ _ _ _ _).length = _
    rw [initNode_length, length_resizeNodes]
  · intro l c r hv
    have hroot := initNode_props (ctxOf box d)
      d 0 0 0 (resizeNodes t0.node_array (calculate_number_nodes d))
      (by show d ≤ 0 + d; omega) ⟨by show 0 < d; omega, by norm_num, by norm_num⟩
      (length_resizeNodes _ _) l c r hv
      (inSubtree_root hv.2.1 hv.2.2)
    rw [calcIdx_zero] at hroot
    exact hroot

/-- Fresh storage after resizing an empty store: every slot holds the
default node. -/
theorem nodeAtSlot_resize_nil (n j : Nat) :
    nodeAtSlot (resizeNodes [] n) j = default := by
  unfold nodeAtSlot resizeNodes
  simp [List.getD_eq_getElem?_getD, List.getElem?_replicate]
  split <;> simp

/-! Geometry of the derived cells over `ℚ`. -/

/-- The derived box of grid position `(l, c, r)`, rewritten with cell size
`extent / 2^l` (exact over `ℚ`). -/
theorem nodeBBox_coords (box : BBox3) (d : Nat) (l c r : Nat) (hl : l < d) :
    nodeBBoxOf (ctxOf box d) l c r =
      ⟨⟨box.bmin.x + (c : ℚ) * ((box.bmax.x - box.bmin.x) / 2 ^ l),
        box.bmin.y,
        box.bmin.z + (r : ℚ) * ((box.bmax.z - box.bmin.z) / 2 ^ l)⟩,
       ⟨box.bmin.x + ((c : ℚ) + 1) * ((box.bmax.x - box.bmin.x) / 2 ^ l),
        box.bmax.y,
        box.bmin.z + ((r : ℚ) + 1) * ((box.bmax.z - box.bmin.z) / 2 ^ l)⟩⟩ := by
  have key : ∀ (k S : ℚ), k * ((2 : ℚ) ^ (d - 1 - l)) * (S / 2 ^ (d - 1)) =
      k * (S / 2 ^ l) := by
    intro k S
    have hsplit : (2 : ℚ) ^ (d - 1) = 2 ^ (d - 1 - l) * 2 ^ l := by
      rw [← pow_add]
      congr 1
      omega
    have hne1 : ((2 : ℚ) ^ (d - 1 - l)) ≠ 0 := pow_ne_zero _ two_ne_zero
    have hne2 : ((2 : ℚ) ^ l) ≠ 0 := pow_ne_zero _ two_ne_zero
    rw [hsplit]
    field_simp
    ring
  simp only [nodeBBoxOf, ctxOf, baseVec, BBox3.get_size, BBox3.mk.injEq,
    Vec3.mk.injEq]
  refine ⟨⟨?_, ?_⟩, ?_, ?_⟩ <;> rw [key] <;> simp

/-- Containment of the query box in the derived cell of `(l, c, r)`,
spelled out componentwise (the negation of the source's rejection test). -/
theorem reject_grid_iff (box : BBox3) (d : Nat) (l c r : Nat) (hl : l < d)
    (q : BBox3) :
    rejectB (nodeBBoxOf (ctxOf box d) l c r) q = false ↔
      (box.bmin.x + (c : ℚ) * ((box.bmax.x - box.bmin.x) / 2 ^ l) ≤ q.bmin.x ∧
       q.bmax.x ≤ box.bmin.x + ((c : ℚ) + 1) * ((box.bmax.x - box.bmin.x) / 2 ^ l) ∧
       box.bmin.y ≤ q.bmin.y ∧ q.bmax.y ≤ box.bmax.y ∧
       box.bmin.z + (r : ℚ) * ((box.bmax.z - box.bmin.z) / 2 ^ l) ≤ q.bmin.z ∧
       q.bmax.z ≤ box.bmin.z + ((r : ℚ) + 1) * ((box.bmax.z - box.bmin.z) / 2 ^ l)) := by
  rw [nodeBBox_coords box d l c r hl]
  simp only [rejectB, Bool.or_eq_false_iff, decide_eq_false_iff_not, not_lt]
  tauto

/-- The derived root cell is the root box itself. -/
theorem reject_root (box : BBox3) (d : Nat) (hd : 1 ≤ d) (q : BBox3) :
    rejectB (nodeBBoxOf (ctxOf box d) 0 0 0) q = rejectB box q := by
  rw [nodeBBox_coords box d 0 0 0 (by omega)]
  simp [rejectB]

/-- Key dyadic fact: a box held inside a level-`l'` cell cannot straddle
the midline of any level-`l` cell when `l < l'`, whatever the sign of the
extent `S`. -/
theorem dyadic_split (S mx qmin qmax : ℚ) (l l' c c' : Nat) (hll : l + 1 ≤ l')
    (h3 : mx + (c' : ℚ) * (S / 2 ^ l') ≤ qmin)
    (h4 : qmax ≤ mx + ((c' : ℚ) + 1) * (S / 2 ^ l')) :
    qmax ≤ mx + (2 * (c : ℚ) + 1) * (S / 2 ^ (l + 1)) ∨
      mx + (2 * (c : ℚ) + 1) * (S / 2 ^ (l + 1)) ≤ qmin := by
  by_contra hcon
  push_neg at hcon
  obtain ⟨hA, hB⟩ := hcon
  have hkq : (((2 * c + 1) * 2 ^ (l' - (l + 1)) : Nat) : ℚ) * (S / 2 ^ l') =
      (2 * (c : ℚ) + 1) * (S / 2 ^ (l + 1)) := by
    have hsplit : (2 : ℚ) ^ l' = 2 ^ (l' - (l + 1)) * 2 ^ (l + 1) := by
      rw [← pow_add]
      congr 1
      omega
    have hne1 : ((2 : ℚ) ^ (l' - (l + 1))) ≠ 0 := pow_ne_zero _ two_ne_zero
    have hne2 : ((2 : ℚ) ^ (l + 1)) ≠ 0 := pow_ne_zero _ two_ne_zero
    push_cast
    rw [hsplit]
    field_simp
    ring
  have hlt1 : (c' : ℚ) * (S / 2 ^ l') <
      (((2 * c + 1) * 2 ^ (l' - (l + 1)) : Nat) : ℚ) * (S / 2 ^ l') := by
    rw [hkq]
    linarith
  have hlt2 : (((2 * c + 1) * 2 ^ (l' - (l + 1)) : Nat) : ℚ) * (S / 2 ^ l') <
      ((c' : ℚ) + 1) * (S / 2 ^ l') := by
    rw [hkq]
    linarith
  rcases lt_trichotomy (S / 2 ^ l' : ℚ) 0 with hs | hs | hs
  · have w1 : (((2 * c + 1) * 2 ^ (l' - (l + 1)) : Nat) : ℚ) < c' :=
      (mul_lt_mul_right_of_neg hs).mp hlt1
    have w2 : ((c' : ℚ) + 1) < ((2 * c + 1) * 2 ^ (l' - (l + 1)) : Nat) :=
      (mul_lt_mul_right_of_neg hs).mp hlt2
    have w1' : ((2 * c + 1) * 2 ^ (l' - (l + 1)) : Nat) < c' := by
      exact_mod_cast w1
    have w2' : c' + 1 < ((2 * c + 1) * 2 ^ (l' - (l + 1)) : Nat) := by
      exact_mod_cast w2
    omega
  · rw [hs] at hlt1 hlt2
    simp at hlt1 hlt2
  · have w1 : (c' : ℚ) < ((2 * c + 1) * 2 ^ (l' - (l + 1)) : Nat) :=
      (mul_lt_mul_right hs).mp hlt1
    have w2 : (((2 * c + 1) * 2 ^ (l' - (l + 1)) : Nat) : ℚ) < (c' : ℚ) + 1 :=
      (mul_lt_mul_right hs).mp hlt2
    have w1' : c' < ((2 * c + 1) * 2 ^ (l' - (l + 1)) : Nat) := by
      exact_mod_cast w1
    have w2' : ((2 * c + 1) * 2 ^ (l' - (l + 1)) : Nat) < c' + 1 := by
      exact_mod_cast w2
    omega

/-- If a node's cell contains the query box and some strictly deeper cell
also contains it, then one of the node's four quadrant children contains
it. -/
theorem contains_child (box : BBox3) (d : Nat) (l c r : Nat)
    (hv : validLCR d l c r) (hd2 : l + 1 < d)
    (l' c' r' : Nat) (hv' : validLCR d l' c' r') (hl' : l + 1 ≤ l') (q : BBox3)
    (hn : rejectB (nodeBBoxOf (ctxOf box d) l c r) q = false)
    (hm : rejectB (nodeBBoxOf (ctxOf box d) l' c' r') q = false) :
    ∃ a b, (a = 2 * c ∨ a = 2 * c + 1) ∧ (b = 2 * r ∨ b = 2 * r + 1) ∧
      rejectB (nodeBBoxOf (ctxOf box d) (l + 1) a b) q = false := by
  have hSx := (reject_grid_iff box d l c r hv.1 q).mp hn
  have hSm := (reject_grid_iff box d l' c' r' hv'.1 q).mp hm
  obtain ⟨hx1, hx2, hy1, hy2, hz1, hz2⟩ := hSx
  obtain ⟨gx1, gx2, -, -, gz1, gz2⟩ := hSm
  have hcoeffl : ∀ (S : ℚ) (m : Nat),
      ((2 * m : Nat) : ℚ) * (S / 2 ^ (l + 1)) = (m : ℚ) * (S / 2 ^ l) := by
    intro S m
    have hne : ((2 : ℚ) ^ l) ≠ 0 := pow_ne_zero _ two_ne_zero
    have hp : (2 : ℚ) ^ (l + 1) = 2 ^ l * 2 := by rw [pow_succ]
    push_cast
    rw [hp]
    field_simp
    ring
  have hcoeffu : ∀ (S : ℚ) (m : Nat),
      (((2 * m + 1 : Nat) : ℚ) + 1) * (S / 2 ^ (l + 1)) =
        ((m : ℚ) + 1) * (S / 2 ^ l) := by
    intro S m
    have hne : ((2 : ℚ) ^ l) ≠ 0 := pow_ne_zero _ two_ne_zero
    have hp : (2 : ℚ) ^ (l + 1) = 2 ^ l * 2 := by rw [pow_succ]
    push_cast
    rw [hp]
    field_simp
    ring
  have hxsplit := dyadic_split (box.bmax.x - box.bmin.x) box.bmin.x
    q.bmin.x q.bmax.x l l' c c' hl' gx1 gx2
  have hzsplit := dyadic_split (box.bmax.z - box.bmin.z) box.bmin.z
    q.bmin.z q.bmax.z l l' r r' hl' gz1 gz2
  have hxlow : ∀ hxu : q.bmax.x ≤ box.bmin.x +
      (2 * (c : ℚ) + 1) * ((box.bmax.x - box.bmin.x) / 2 ^ (l + 1)),
      box.bmin.x + ((2 * c : Nat) : ℚ) *
          ((box.bmax.x - box.bmin.x) / 2 ^ (l + 1)) ≤ q.bmin.x ∧
      q.bmax.x ≤ box.bmin.x + (((2 * c : Nat) : ℚ) + 1) *
          ((box.bmax.x - box.bmin.x) / 2 ^ (l + 1)) := by
    intro hxu
    constructor
    · rw [hcoeffl]
      exact hx1
    · have : (((2 * c : Nat) : ℚ) + 1) = 2 * (c : ℚ) + 1 := by push_cast; ring
      rw [this]
      exact hxu
  have hxhigh : ∀ hxl : box.bmin.x +
      (2 * (c : ℚ) + 1) * ((box.bmax.x - box.bmin.x) / 2 ^ (l + 1)) ≤ q.bmin.x,
      box.bmin.x + ((2 * c + 1 : Nat) : ℚ) *
          ((box.bmax.x - box.bmin.x) / 2 ^ (l + 1)) ≤ q.bmin.x ∧
      q.bmax.x ≤ box.bmin.x + (((2 * c + 1 : Nat) : ℚ) + 1) *
          ((box.bmax.x - box.bmin.x) / 2 ^ (l + 1)) := by
    intro hxl
    constructor
    · have : ((2 * c + 1 : Nat) : ℚ) = 2 * (c : ℚ) + 1 := by push_cast; ring
      rw [this]
      exact hxl
    · rw [hcoeffu]
      exact hx2
  have hzlow : ∀ hzu : q.bmax.z ≤ box.bmin.z +
      (2 * (r : ℚ) + 1) * ((box.bmax.z - box.bmin.z) / 2 ^ (l + 1)),
      box.bmin.z + ((2 * r : Nat) : ℚ) *
          ((box.bmax.z - box.bmin.z) / 2 ^ (l + 1)) ≤ q.bmin.z ∧
      q.bmax.z ≤ box.bmin.z + (((2 * r : Nat) : ℚ) + 1) *
          ((box.bmax.z - box.bmin.z) / 2 ^ (l + 1)) := by
    intro hzu
    constructor
    · rw [hcoeffl]
      exact hz1
    · have : (((2 * r : Nat) : ℚ) + 1) = 2 * (r : ℚ) + 1 := by push_cast; ring
      rw [this]
      exact hzu
  have hzhigh : ∀ hzl : box.bmin.z +
      (2 * (r : ℚ) + 1) * ((box.bmax.z - box.bmin.z) / 2 ^ (l + 1)) ≤ q.bmin.z,
      box.bmin.z + ((2 * r + 1 : Nat) : ℚ) *
          ((box.bmax.z - box.bmin.z) / 2 ^ (l + 1)) ≤ q.bmin.z ∧
      q.bmax.z ≤ box.bmin.z + (((2 * r + 1 : Nat) : ℚ) + 1) *
          ((box.bmax.z - box.bmin.z) / 2 ^ (l + 1)) := by
    intro hzl
    constructor
    · have : ((2 * r + 1 : Nat) : ℚ) = 2 * (r : ℚ) + 1 := by push_cast; ring
      rw [this]
      exact hzl
    · rw [hcoeffu]
      exact hz2
  rcases hxsplit with hxu | hxl <;> rcases hzsplit with hzu | hzl
  · exact ⟨2 * c, 2 * r, Or.inl rfl, Or.inl rfl,
      (reject_grid_iff box d (l + 1) (2 * c) (2 * r) hd2 q).mpr
        ⟨(hxlow hxu).1, (hxlow hxu).2, hy1, hy2, (hzlow hzu).1, (hzlow hzu).2⟩⟩
  · exact ⟨2 * c, 2 * r + 1, Or.inl rfl, Or.inr rfl,
      (reject_grid_iff box d (l + 1) (2 * c) (2 * r + 1) hd2 q).mpr
        ⟨(hxlow hxu).1, (hxlow hxu).2, hy1, hy2, (hzhigh hzl).1, (hzhigh hzl).2⟩⟩
  · exact ⟨2 * c + 1, 2 * r, Or.inr rfl, Or.inl rfl,
      (reject_grid_iff box d (l + 1) (2 * c + 1) (2 * r) hd2 q).mpr
        ⟨(hxhigh hxl).1, (hxhigh hxl).2, hy1, hy2, (hzlow hzu).1, (hzlow hzu).2⟩⟩
  · exact ⟨2 * c + 1, 2 * r + 1, Or.inr rfl, Or.inr rfl,
      (reject_grid_iff box d (l + 1) (2 * c + 1) (2 * r + 1) hd2 q).mpr
        ⟨(hxhigh hxl).1, (hxhigh hxl).2, hy1, hy2, (hzhigh hzl).1, (hzhigh hzl).2⟩⟩

/-- Behaviour of `find_containment_node_recursive` on a freshly
initialized tree, at any grid position: it returns null exactly when the
node's cell does not contain the query box, and otherwise returns a
containing node of maximal level among all containing cells of the whole
grid. -/
theorem findRec_spec (box : BBox3) (d : Nat) (hd : 1 ≤ d) (q : BBox3) :
    ∀ fuel l c r, validLCR d l c r → d ≤ l + fuel →
      (rejectB (nodeBBoxOf (ctxOf box d) l c r) q = true →
        findRec (freshTree box d).node_array q fuel
          (calculate_node_index l c r) = none) ∧
      (rejectB (nodeBBoxOf (ctxOf box d) l c r) q = false →
        ∃ lm cm rm, validLCR d lm cm rm ∧ l ≤ lm ∧
          findRec (freshTree box d).node_array q fuel
              (calculate_node_index l c r) =
            some (calculate_node_index lm cm rm) ∧
          rejectB (nodeBBoxOf (ctxOf box d) lm cm rm) q = false ∧
          (∀ l2 c2 r2, validLCR d l2 c2 r2 →
            rejectB (nodeBBoxOf (ctxOf box d) l2 c2 r2) q = false →
              l2 ≤ lm)) := by
  have hchar := (initTree_char {} box d hd).2.2.2.2
  intro fuel
  induction fuel with
  | zero =>
      intro l c r hv hf
      exact absurd hv.1 (by omega)
  | succ fuel ih =>
      intro l c r hv hf
      obtain ⟨-, hbb, hint, hleaf⟩ := hchar l c r hv
      rw [show (QuadTree.initTree {} box d).node_array =
        (freshTree box d).node_array from rfl] at hbb hint hleaf
      constructor
      · intro hrej
        simp only [findRec]
        rw [hbb, hrej]
        simp
      · intro hcon
        by_cases hdleaf : l + 1 < d
        · -- interior node: four children, tried in order
          obtain ⟨hc0, hc1, hc2, hc3⟩ := hint hdleaf
          have hch : (nodeAtSlot (freshTree box d).node_array
              (calculate_node_index l c r)).has_children = true := by
            simp [QNode.has_children, QNode.get_child_at, hc0]
          have hstep : findRec (freshTree box d).node_array q (fuel + 1)
              (calculate_node_index l c r) =
              firstSome (findRec (freshTree box d).node_array q fuel
                  (calculate_node_index (l + 1) (2 * c) (2 * r)))
                (firstSome (findRec (freshTree box d).node_array q fuel
                    (calculate_node_index (l + 1) (2 * c + 1) (2 * r)))
                  (firstSome (findRec (freshTree box d).node_array q fuel
                      (calculate_node_index (l + 1) (2 * c) (2 * r + 1)))
                    (firstSome (findRec (freshTree box d).node_array q fuel
                        (calculate_node_index (l + 1) (2 * c + 1) (2 * r + 1)))
                      (some (calculate_node_index l c r))))) := by
            simp only [findRec]
            rw [hbb, hcon]
            simp only [Bool.false_eq_true, if_false, hch, if_true,
              QNode.get_child_at, hc0, hc1, hc2, hc3, Option.getD_some]
          rw [hstep]
          have hv0 : validLCR d (l + 1) (2 * c) (2 * r) :=
            validLCR_child hv hdleaf (Or.inl rfl) (Or.inl rfl)
          have hv1 : validLCR d (l + 1) (2 * c + 1) (2 * r) :=
            validLCR_child hv hdleaf (Or.inr rfl) (Or.inl rfl)
          have hv2 : validLCR d (l + 1) (2 * c) (2 * r + 1) :=
            validLCR_child hv hdleaf (Or.inl rfl) (Or.inr rfl)
          have hv3 : validLCR d (l + 1) (2 * c + 1) (2 * r + 1) :=
            validLCR_child hv hdleaf (Or.inr rfl) (Or.inr rfl)
          by_cases h0 : rejectB (nodeBBoxOf (ctxOf box d) (l + 1) (2 * c)
              (2 * r)) q = false
          · obtain ⟨lm, cm, rm, hvm, hlm, hres, hcm, hglob⟩ :=
              (ih (l + 1) (2 * c) (2 * r) hv0 (by omega)).2 h0
            rw [hres]
            exact ⟨lm, cm, rm, hvm, by omega, rfl, hcm, hglob⟩
          · have h0' : rejectB (nodeBBoxOf (ctxOf box d) (l + 1) (2 * c)
                (2 * r)) q = true := by
              revert h0
              cases rejectB (nodeBBoxOf (ctxOf box d) (l + 1) (2 * c)
                (2 * r)) q <;> simp
            rw [(ih (l + 1) (2 * c) (2 * r) hv0 (by omega)).1 h0']
            simp only [firstSome]
            by_cases h1 : rejectB (nodeBBoxOf (ctxOf box d) (l + 1)
                (2 * c + 1) (2 * r)) q = false
            · obtain ⟨lm, cm, rm, hvm, hlm, hres, hcm, hglob⟩ :=
                (ih (l + 1) (2 * c + 1) (2 * r) hv1 (by omega)).2 h1
              rw [hres]
              exact ⟨lm, cm, rm, hvm, by omega, rfl, hcm, hglob⟩
            · have h1' : rejectB (nodeBBoxOf (ctxOf box d) (l + 1)
                  (2 * c + 1) (2 * r)) q = true := by
                revert h1
                cases rejectB (nodeBBoxOf (ctxOf box d) (l + 1) (2 * c + 1)
                  (2 * r)) q <;> simp
              rw [(ih (l + 1) (2 * c + 1) (2 * r) hv1 (by omega)).1 h1']
              simp only [firstSome]
              by_cases h2 : rejectB (nodeBBoxOf (ctxOf box d) (l + 1)
                  (2 * c) (2 * r + 1)) q = false
              · obtain ⟨lm, cm, rm, hvm, hlm, hres, hcm, hglob⟩ :=
                  (ih (l + 1) (2 * c) (2 * r + 1) hv2 (by omega)).2 h2
                rw [hres]
                exact ⟨lm, cm, rm, hvm, by omega, rfl, hcm, hglob⟩
              · have h2' : rejectB (nodeBBoxOf (ctxOf box d) (l + 1)
                    (2 * c) (2 * r + 1)) q = true := by
                  revert h2
                  cases rejectB (nodeBBoxOf (ctxOf box d) (l + 1) (2 * c)
                    (2 * r + 1)) q <;> simp
                rw [(ih (l + 1) (2 * c) (2 * r + 1) hv2 (by omega)).1 h2']
                simp only [firstSome]
                by_cases h3 : rejectB (nodeBBoxOf (ctxOf box d) (l + 1)
                    (2 * c + 1) (2 * r + 1)) q = false
                · obtain ⟨lm, cm, rm, hvm, hlm, hres, hcm, hglob⟩ :=
                    (ih (l + 1) (2 * c + 1) (2 * r + 1) hv3 (by omega)).2 h3
                  rw [hres]
                  exact ⟨lm, cm, rm, hvm, by omega, rfl, hcm, hglob⟩
                · have h3' : rejectB (nodeBBoxOf (ctxOf box d) (l + 1)
                      (2 * c + 1) (2 * r + 1)) q = true := by
                    revert h3
                    cases rejectB (nodeBBoxOf (ctxOf box d) (l + 1)
                      (2 * c + 1) (2 * r + 1)) q <;> simp
                  rw [(ih (l + 1) (2 * c + 1) (2 * r + 1) hv3 (by omega)).1 h3']
                  simp only [firstSome]
                  refine ⟨l, c, r, hv, le_refl l, rfl, hcon, ?_⟩
                  intro l2 c2 r2 hv2' hcont2
                  by_contra hgt
                  push_neg at hgt
                  obtain ⟨a, b, ha, hb, hcb⟩ := contains_child box d l c r hv
                    hdleaf l2 c2 r2 hv2' (by omega) q hcon hcont2
                  rcases ha with rfl | rfl <;> rcases hb with rfl | rfl
                  · rw [hcb] at h0'
                    exact absurd h0' (by simp)
                  · rw [hcb] at h2'
                    exact absurd h2' (by simp)
                  · rw [hcb] at h1'
                    exact absurd h1' (by simp)
                  · rw [hcb] at h3'
                    exact absurd h3' (by simp)
        · -- node of the last level: no children
          have hleq : l + 1 = d := by
            have := hv.1
            omega
          obtain ⟨e0, -, -, -⟩ := hleaf hleq
          rw [nodeAtSlot_resize_nil] at e0
          have hch : (nodeAtSlot (freshTree box d).node_array
              (calculate_node_index l c r)).has_children = false := by
            simp only [show (default : QNode).child0 = none from rfl] at e0
            simp [QNode.has_children, QNode.get_child_at, e0]
          refine ⟨l, c, r, hv, le_refl l, ?_, hcon, ?_⟩
          · simp only [findRec]
            rw [hbb, hcon]
            simp [hch]
          · intro l2 c2 r2 hv2' hcont2
            have := hv2'.1
            omega

/-! The claims. -/

/-- C5: in a freshly initialized tree, every node below the last level has
exactly the four quadrant children in the fixed order 0..3 (and reports
children); every node of the last level has all four child slots null (and
reports none); and `has_children` is true exactly when all four children
are present — never a partial set. -/
theorem claim_C5 (box : BBox3) (d : Nat) (hd : 1 ≤ d) (l c r : Nat)
    (hv : validLCR d l c r) :
    (l + 1 < d →
      childrenQuad ((freshTree box d).get_node_by_index
        (calculate_node_index l c r)) l c r ∧
      ((freshTree box d).get_node_by_index
        (calculate_node_index l c r)).has_children = true) ∧
    (l + 1 = d →
      ((freshTree box d).get_node_by_index
        (calculate_node_index l c r)).child0 = none ∧
      ((freshTree box d).get_node_by_index
        (calculate_node_index l c r)).child1 = none ∧
      ((freshTree box d).get_node_by_index
        (calculate_node_index l c r)).child2 = none ∧
      ((freshTree box d).get_node_by_index
        (calculate_node_index l c r)).child3 = none ∧
      ((freshTree box d).get_node_by_index
        (calculate_node_index l c r)).has_children = false) ∧
    (((freshTree box d).get_node_by_index
        (calculate_node_index l c r)).has_children = true ↔
      (((freshTree box d).get_node_by_index
          (calculate_node_index l c r)).child0.isSome ∧
        ((freshTree box d).get_node_by_index
          (calculate_node_index l c r)).child1.isSome ∧
        ((freshTree box d).get_node_by_index
          (calculate_node_index l c r)).child2.isSome ∧
        ((freshTree box d).get_node_by_index
          (calculate_node_index l c r)).child3.isSome)) := by
  obtain ⟨-, -, -, -, hchar⟩ := initTree_char {} box d hd
  obtain ⟨-, -, hint, hleaf⟩ := hchar l c r hv
  rw [nodeAtSlot_resize_nil] at hleaf
  simp only [freshTree, QuadTree.get_node_by_index]
  refine ⟨?_, ?_, ?_⟩
  · intro h
    refine ⟨hint h, ?_⟩
    have h0 := (hint h).1
    simp [QNode.has_children, QNode.get_child_at, h0]
  · intro h
    obtain ⟨e0, e1, e2, e3⟩ := hleaf h
    simp only [show (default : QNode).child0 = none from rfl] at e0
    simp only [show (default : QNode).child1 = none from rfl] at e1
    simp only [show (default : QNode).child2 = none from rfl] at e2
    simp only [show (default : QNode).child3 = none from rfl] at e3
    exact ⟨e0, e1, e2, e3, by simp [QNode.has_children, QNode.get_child_at, e0]⟩
  · rcases Nat.lt_or_ge (l + 1) d with hc' | hc'
    · obtain ⟨h0, h1, h2, h3⟩ := hint hc'
      constructor
      · intro h
        rw [h0, h1, h2, h3]
        exact ⟨rfl, rfl, rfl, rfl⟩
      · intro h
        simp [QNode.has_children, QNode.get_child_at, h0]
    · have heq : l + 1 = d := by have := hv.1; omega
      obtain ⟨e0, -, -, -⟩ := hleaf heq
      simp only [show (default : QNode).child0 = none from rfl] at e0
      constructor
      · intro h
        rw [QNode.has_children, QNode.get_child_at] at h
        rw [e0] at h
        exact absurd h (by simp)
      · intro h
        rw [e0] at h
        exact absurd h.1 (by simp)

/-- C5 witness at `box = [0,4] x [0,2] x [0,4]`, `d = 2`, node `(0,0,0)`. -/
theorem claim_C5_witness :
    (1 ≤ 2 ∧ validLCR 2 0 0 0) ∧
    ((0 + 1 < 2 →
      childrenQuad ((freshTree ⟨⟨0, 0, 0⟩, ⟨4, 2, 4⟩⟩ 2).get_node_by_index
        (calculate_node_index 0 0 0)) 0 0 0 ∧
      ((freshTree ⟨⟨0, 0, 0⟩, ⟨4, 2, 4⟩⟩ 2).get_node_by_index
        (calculate_node_index 0 0 0)).has_children = true) ∧
    (0 + 1 = 2 →
      ((freshTree ⟨⟨0, 0, 0⟩, ⟨4, 2, 4⟩⟩ 2).get_node_by_index
        (calculate_node_index 0 0 0)).child0 = none ∧
      ((freshTree ⟨⟨0, 0, 0⟩, ⟨4, 2, 4⟩⟩ 2).get_node_by_index
        (calculate_node_index 0 0 0)).child1 = none ∧
      ((freshTree ⟨⟨0, 0, 0⟩, ⟨4, 2, 4⟩⟩ 2).get_node_by_index
        (calculate_node_index 0 0 0)).child2 = none ∧
      ((freshTree ⟨⟨0, 0, 0⟩, ⟨4, 2, 4⟩⟩ 2).get_node_by_index
        (calculate_node_index 0 0 0)).child3 = none ∧
      ((freshTree ⟨⟨0, 0, 0⟩, ⟨4, 2, 4⟩⟩ 2).get_node_by_index
        (calculate_node_index 0 0 0)).has_children = false) ∧
    (((freshTree ⟨⟨0, 0, 0⟩, ⟨4, 2, 4⟩⟩ 2).get_node_by_index
        (calculate_node_index 0 0 0)).has_children = true ↔
      (((freshTree ⟨⟨0, 0, 0⟩, ⟨4, 2, 4⟩⟩ 2).get_node_by_index
          (calculate_node_index 0 0 0)).child0.isSome ∧
        ((freshTree ⟨⟨0, 0, 0⟩, ⟨4, 2, 4⟩⟩ 2).get_node_by_index
          (calculate_node_index 0 0 0)).child1.isSome ∧
        ((freshTree ⟨⟨0, 0, 0⟩, ⟨4, 2, 4⟩⟩ 2).get_node_by_index
          (calculate_node_index 0 0 0)).child2.isSome ∧
        ((freshTree ⟨⟨0, 0, 0⟩, ⟨4, 2, 4⟩⟩ 2).get_node_by_index
          (calculate_node_index 0 0 0)).child3.isSome))) :=
  ⟨⟨by decide, by decide⟩,
    claim_C5 ⟨⟨0, 0, 0⟩, ⟨4, 2, 4⟩⟩ 2 (by decide) 0 0 0 (by decide)⟩

/-- C6: in a freshly initialized tree of depth `d` over `box`, the node of
grid position `(l, c, r)` has the box derivable from the root box alone:
with `level_factor = 2^(d-1-l)` and base cell sizes obtained by dividing
the root X/Z extents by `2^(d-1)`, X spans
`[min_x + c*lf*base_x, min_x + (c+1)*lf*base_x]`, Z the same via `r`, and Y
spans the root box's full Y range. -/
theorem claim_C6 (box : BBox3) (d : Nat) (hd : 1 ≤ d) (l c r : Nat)
    (hv : validLCR d l c r) :
    ((freshTree box d).get_node_by_index (calculate_node_index l c r)).bbox =
      ⟨⟨box.bmin.x + (c : ℚ) * (2 ^ (d - 1 - l) : ℚ) *
          ((box.bmax.x - box.bmin.x) / (2 ^ (d - 1) : ℚ)),
        box.bmin.y,
        box.bmin.z + (r : ℚ) * (2 ^ (d - 1 - l) : ℚ) *
          ((box.bmax.z - box.bmin.z) / (2 ^ (d - 1) : ℚ))⟩,
       ⟨box.bmin.x + ((c : ℚ) + 1) * (2 ^ (d - 1 - l) : ℚ) *
          ((box.bmax.x - box.bmin.x) / (2 ^ (d - 1) : ℚ)),
        box.bmax.y,
        box.bmin.z + ((r : ℚ) + 1) * (2 ^ (d - 1 - l) : ℚ) *
          ((box.bmax.z - box.bmin.z) / (2 ^ (d - 1) : ℚ))⟩⟩ := by
  obtain ⟨-, -, -, -, hchar⟩ := initTree_char {} box d hd
  have hbb := (hchar l c r hv).2.1
  simp only [freshTree, QuadTree.get_node_by_index]
  rw [hbb]
  simp [nodeBBoxOf, ctxOf, baseVec, BBox3.get_size]

/-- C6 witness at `box = [-4,4] x [-2,2] x [-4,4]`, `d = 2`, node
`(1,1,1)`. -/
theorem claim_C6_witness :
    (1 ≤ 2 ∧ validLCR 2 1 1 1) ∧
    ((freshTree ⟨⟨-4, -2, -4⟩, ⟨4, 2, 4⟩⟩ 2).get_node_by_index
        (calculate_node_index 1 1 1)).bbox =
      ⟨⟨(-4 : ℚ) + (1 : ℚ) * (2 ^ (2 - 1 - 1) : ℚ) *
          (((4 : ℚ) - (-4 : ℚ)) / (2 ^ (2 - 1) : ℚ)),
        (-2 : ℚ),
        (-4 : ℚ) + (1 : ℚ) * (2 ^ (2 - 1 - 1) : ℚ) *
          (((4 : ℚ) - (-4 : ℚ)) / (2 ^ (2 - 1) : ℚ))⟩,
       ⟨(-4 : ℚ) + ((1 : ℚ) + 1) * (2 ^ (2 - 1 - 1) : ℚ) *
          (((4 : ℚ) - (-4 : ℚ)) / (2 ^ (2 - 1) : ℚ)),
        (2 : ℚ),
        (-4 : ℚ) + ((1 : ℚ) + 1) * (2 ^ (2 - 1 - 1) : ℚ) *
          (((4 : ℚ) - (-4 : ℚ)) / (2 ^ (2 - 1) : ℚ))⟩⟩ :=
  ⟨⟨by decide, by decide⟩,
    by simpa using claim_C6 ⟨⟨-4, -2, -4⟩, ⟨4, 2, 4⟩⟩ 2 (by decide) 1 1 1 (by decide)⟩

/-- C7, amended: re-initializing a tree with `(box2, depth2)` rebuilds the
depth, root box, base cell size, storage size, every node's bounding box
and every interior node's child links identically to a fresh tree built
with `(box2, depth2)`; but payloads are not cleared: every surviving slot
keeps the element it had before the call. -/
theorem claim_C7 (t0 : QuadTree) (box2 : BBox3) (d2 : Nat) (hd2 : 1 ≤ d2) :
    (t0.initTree box2 d2).tree_depth = (freshTree box2 d2).tree_depth ∧
    (t0.initTree box2 d2).root_bbox = (freshTree box2 d2).root_bbox ∧
    (t0.initTree box2 d2).base_node_size =
      (freshTree box2 d2).base_node_size ∧
    (t0.initTree box2 d2).node_array.length =
      (freshTree box2 d2).node_array.length ∧
    (∀ l c r, validLCR d2 l c r →
      ((t0.initTree box2 d2).get_node_by_index
          (calculate_node_index l c r)).bbox =
        ((freshTree box2 d2).get_node_by_index
          (calculate_node_index l c r)).bbox ∧
      (l + 1 < d2 →
        childrenQuad ((t0.initTree box2 d2).get_node_by_index
          (calculate_node_index l c r)) l c r) ∧
      (l + 1 = d2 →
        childrenEq ((t0.initTree box2 d2).get_node_by_index
            (calculate_node_index l c r))
          (nodeAtSlot (resizeNodes t0.node_array (calculate_number_nodes d2))
            (calculate_node_index l c r)))) ∧
    (∀ j, j < calculate_number_nodes d2 →
      ((t0.initTree box2 d2).get_node_by_index j).element =
        if j < t0.node_array.length then (t0.get_node_by_index j).element
        else 0) := by
  obtain ⟨ha1, ha2, ha3, ha4, hacha⟩ := initTree_char t0 box2 d2 hd2
  obtain ⟨hb1, hb2, hb3, hb4, hchb⟩ := initTree_char {} box2 d2 hd2
  refine ⟨?_, ?_, ?_, ?_, ?_, ?_⟩
  · rw [ha1]
    exact hb1.symm
  · rw [ha2]
    exact hb2.symm
  · rw [ha3]
    exact hb3.symm
  · rw [ha4, freshTree]
    exact hb4.symm
  · intro l c r hv
    have hba := (hacha l c r hv).2.1
    have hbb := (hchb l c r hv).2.1
    refine ⟨?_, ?_, ?_⟩
    · simp only [freshTree, QuadTree.get_node_by_index]
      rw [hba, hbb]
    · intro h
      exact (hacha l c r hv).2.2.1 h
    · intro h
      exact (hacha l c r hv).2.2.2 h
  · intro j hj
    obtain ⟨l, c, r, hv, he⟩ := index_decompose hj
    subst he
    have hel := (hacha l c r hv).1
    rw [QuadTree.get_node_by_index, hel, nodeAtSlot, getD_resizeNodes _ _ _
      (calcIdx_lt_total hv)]
    by_cases hjl : calculate_node_index l c r < t0.node_array.length
    · simp [hjl, QuadTree.get_node_by_index, nodeAtSlot]
    · simp only [hjl, if_false]
      rfl

/-- C7 witness for the amended claim, at a tree that already carries a
payload and is re-initialized with the same box and depth. -/
theorem claim_C7_witness :
    1 ≤ 1 ∧
    ((((freshTree ⟨⟨0, 0, 0⟩, ⟨1, 1, 1⟩⟩ 1).set_element 0 5).initTree
        ⟨⟨0, 0, 0⟩, ⟨1, 1, 1⟩⟩ 1).get_node_by_index 0).element =
      (if 0 < ((freshTree ⟨⟨0, 0, 0⟩, ⟨1, 1, 1⟩⟩ 1).set_element 0 5).node_array.length
        then (((freshTree ⟨⟨0, 0, 0⟩, ⟨1, 1, 1⟩⟩ 1).set_element 0 5).get_node_by_index 0).element
        else 0) :=
  ⟨by decide,
    (claim_C7 ((freshTree ⟨⟨0, 0, 0⟩, ⟨1, 1, 1⟩⟩ 1).set_element 0 5)
      ⟨⟨0, 0, 0⟩, ⟨1, 1, 1⟩⟩ 1 (by decide)).2.2.2.2.2 0 (by decide)⟩

/-- C7 counterexample to the claim as stated: after re-initializing with
the same box and depth, the previously set payload is still observable,
unlike in a freshly constructed tree. -/
theorem claim_C7_counterexample :
    ((((freshTree ⟨⟨0, 0, 0⟩, ⟨1, 1, 1⟩⟩ 1).set_element 0 5).initTree
        ⟨⟨0, 0, 0⟩, ⟨1, 1, 1⟩⟩ 1).get_node_by_index 0).element = 5 ∧
    ((freshTree ⟨⟨0, 0, 0⟩, ⟨1, 1, 1⟩⟩ 1).get_node_by_index 0).element = 0 := by
  constructor <;> decide

/-- C1: on a freshly initialized tree, `find_containment_node` returns
null exactly when the root box does not fully contain the query box (an
ordinary, distinguishable empty result), and any non-null result is a node
whose stored box contains the query and whose level is maximal among all
nodes whose stored boxes contain it. -/
theorem claim_C1 (box : BBox3) (d : Nat) (hd : 1 ≤ d) (q : BBox3) :
    ((freshTree box d).find_containment_node q = none ↔
      rejectB box q = true) ∧
    (∀ m, (freshTree box d).find_containment_node q = some m →
      ∃ l c r, validLCR d l c r ∧ m = calculate_node_index l c r ∧
        rejectB ((freshTree box d).get_node_by_index m).bbox q = false ∧
        ∀ l2 c2 r2, validLCR d l2 c2 r2 →
          rejectB ((freshTree box d).get_node_by_index
            (calculate_node_index l2 c2 r2)).bbox q = false → l2 ≤ l) := by
  have hchar := initTree_char {} box d hd
  have hdep : (freshTree box d).tree_depth = d := hchar.1
  have hspec := findRec_spec box d hd q d 0 0 0
    ⟨by omega, by norm_num, by norm_num⟩ (by omega)
  have hfind : (freshTree box d).find_containment_node q =
      findRec (freshTree box d).node_array q d (calculate_node_index 0 0 0) := by
    rw [QuadTree.find_containment_node, hdep, calcIdx_zero]
  have hroot := reject_root box d hd q
  constructor
  · constructor
    · intro hnone
      by_contra hrej
      have hrej' : rejectB box q = false := by
        revert hrej
        cases rejectB box q <;> simp
      have hcon : rejectB (nodeBBoxOf (ctxOf box d) 0 0 0) q = false := by
        rw [hroot]
        exact hrej'
      obtain ⟨lm, cm, rm, -, -, hres, -, -⟩ := hspec.2 hcon
      rw [hfind, hres] at hnone
      exact absurd hnone (by simp)
    · intro hrej
      have hcon : rejectB (nodeBBoxOf (ctxOf box d) 0 0 0) q = true := by
        rw [hroot]
        exact hrej
      rw [hfind]
      exact hspec.1 hcon
  · intro m hm
    have hcon : rejectB (nodeBBoxOf (ctxOf box d) 0 0 0) q = false := by
      by_contra hx
      have hx' : rejectB (nodeBBoxOf (ctxOf box d) 0 0 0) q = true := by
        revert hx
        cases rejectB (nodeBBoxOf (ctxOf box d) 0 0 0) q <;> simp
      rw [hfind, hspec.1 hx'] at hm
      exact absurd hm (by simp)
    obtain ⟨lm, cm, rm, hvm, -, hres, hcm, hglob⟩ := hspec.2 hcon
    rw [hfind, hres] at hm
    injection hm with hm
    refine ⟨lm, cm, rm, hvm, hm.symm, ?_, ?_⟩
    · have hbbm : (nodeAtSlot (freshTree box d).node_array
          (calculate_node_index lm cm rm)).bbox =
            nodeBBoxOf (ctxOf box d) lm cm rm :=
        (hchar.2.2.2.2 lm cm rm hvm).2.1
      rw [← hm, QuadTree.get_node_by_index, hbbm]
      exact hcm
    · intro l2 c2 r2 hv2 hc2
      apply hglob l2 c2 r2 hv2
      have hbb2 : (nodeAtSlot (freshTree box d).node_array
          (calculate_node_index l2 c2 r2)).bbox =
            nodeBBoxOf (ctxOf box d) l2 c2 r2 :=
        (hchar.2.2.2.2 l2 c2 r2 hv2).2.1
      rw [QuadTree.get_node_by_index, hbb2] at hc2
      exact hc2

/-- C1 witness at depth 2 over `[0,4] x [0,2] x [0,4]` with the query box
`[1,2] x [1,2] x [1,2]`. -/
theorem claim_C1_witness :
    1 ≤ 2 ∧
    (((freshTree ⟨⟨0, 0, 0⟩, ⟨4, 2, 4⟩⟩ 2).find_containment_node
        ⟨⟨1, 1, 1⟩, ⟨2, 2, 2⟩⟩ = none ↔
      rejectB ⟨⟨0, 0, 0⟩, ⟨4, 2, 4⟩⟩ ⟨⟨1, 1, 1⟩, ⟨2, 2, 2⟩⟩ = true) ∧
    (∀ m, (freshTree ⟨⟨0, 0, 0⟩, ⟨4, 2, 4⟩⟩ 2).find_containment_node
        ⟨⟨1, 1, 1⟩, ⟨2, 2, 2⟩⟩ = some m →
      ∃ l c r, validLCR 2 l c r ∧ m = calculate_node_index l c r ∧
        rejectB ((freshTree ⟨⟨0, 0, 0⟩, ⟨4, 2, 4⟩⟩ 2).get_node_by_index m).bbox
          ⟨⟨1, 1, 1⟩, ⟨2, 2, 2⟩⟩ = false ∧
        ∀ l2 c2 r2, validLCR 2 l2 c2 r2 →
          rejectB ((freshTree ⟨⟨0, 0, 0⟩, ⟨4, 2, 4⟩⟩ 2).get_node_by_index
            (calculate_node_index l2 c2 r2)).bbox
              ⟨⟨1, 1, 1⟩, ⟨2, 2, 2⟩⟩ = false → l2 ≤ l)) :=
  ⟨by decide, claim_C1 ⟨⟨0, 0, 0⟩, ⟨4, 2, 4⟩⟩ 2 (by decide) ⟨⟨1, 1, 1⟩, ⟨2, 2, 2⟩⟩⟩

/-- C9: the rejection test uses strict comparisons only, so a
boundary-touching query box is treated as contained: whenever the query
box's minima are at least the node box's minima and its maxima at most the
node box's maxima (equality allowed), `find_containment_node_recursive`
on that node returns a non-null result. -/
theorem claim_C9 (arr : List QNode) (idx fuel : Nat) (q : BBox3)
    (h1 : (nodeAtSlot arr idx).bbox.bmin.x ≤ q.bmin.x)
    (h2 : q.bmax.x ≤ (nodeAtSlot arr idx).bbox.bmax.x)
    (h3 : (nodeAtSlot arr idx).bbox.bmin.y ≤ q.bmin.y)
    (h4 : q.bmax.y ≤ (nodeAtSlot arr idx).bbox.bmax.y)
    (h5 : (nodeAtSlot arr idx).bbox.bmin.z ≤ q.bmin.z)
    (h6 : q.bmax.z ≤ (nodeAtSlot arr idx).bbox.bmax.z) :
    (findRec arr q (fuel + 1) idx).isSome = true := by
  have hrej : rejectB (nodeAtSlot arr idx).bbox q = false := by
    simp only [rejectB, Bool.or_eq_false_iff, decide_eq_false_iff_not, not_lt]
    refine ⟨⟨⟨⟨⟨h1, h2⟩, h3⟩, h4⟩, h5⟩, h6⟩
  have hfs : ∀ (a b : Option Nat), b.isSome = true →
      (firstSome a b).isSome = true := by
    intro a b hb
    cases a <;> simp [firstSome, hb]
  simp only [findRec]
  rw [hrej]
  simp only [Bool.false_eq_true, if_false]
  by_cases hch : (nodeAtSlot arr idx).has_children
  · simp only [hch, if_true]
    exact hfs _ _ (hfs _ _ (hfs _ _ (hfs _ _ (by simp))))
  · simp [hch]

/-- C9 witness: a query box exactly coinciding with the node's box is not
rejected. -/
theorem claim_C9_witness :
    ((nodeAtSlot [{ element := 0, bbox := ⟨⟨0, 0, 0⟩, ⟨4, 2, 4⟩⟩ }] 0).bbox.bmin.x ≤
        (0 : ℚ) ∧
      (4 : ℚ) ≤ (nodeAtSlot [{ element := 0, bbox := ⟨⟨0, 0, 0⟩, ⟨4, 2, 4⟩⟩ }] 0).bbox.bmax.x) ∧
    (findRec [{ element := 0, bbox := ⟨⟨0, 0, 0⟩, ⟨4, 2, 4⟩⟩ }]
      ⟨⟨0, 0, 0⟩, ⟨4, 2, 4⟩⟩ 1 0).isSome = true := by
  refine ⟨⟨by norm_num [nodeAtSlot], by norm_num [nodeAtSlot]⟩, ?_⟩
  exact claim_C9 [{ element := 0, bbox := ⟨⟨0, 0, 0⟩, ⟨4, 2, 4⟩⟩ }] 0 0
    ⟨⟨0, 0, 0⟩, ⟨4, 2, 4⟩⟩
    (by norm_num [nodeAtSlot]) (by norm_num [nodeAtSlot])
    (by norm_num [nodeAtSlot]) (by norm_num [nodeAtSlot])
    (by norm_num [nodeAtSlot]) (by norm_num [nodeAtSlot])

/-- C4: for every level and all columns and rows below `2^level`,
`calculate_node_index(level, col, row)` equals
`calculate_number_nodes(level) + (row << level) + col`; distinct valid
triples give distinct indices, and at a fixed level the indices over all
`(col, row)` exactly fill
`[calculate_number_nodes(level), calculate_number_nodes(level+1))`. -/
theorem claim_C4 (level col row : Nat)
    (hc : col < 2 ^ level) (hr : row < 2 ^ level) :
    calculate_node_index level col row =
      calculate_number_nodes level + (row <<< level) + col ∧
    (∀ l' c' r', c' < 2 ^ l' → r' < 2 ^ l' →
      calculate_node_index level col row = calculate_node_index l' c' r' →
      level = l' ∧ col = c' ∧ row = r') ∧
    (calculate_number_nodes level ≤ calculate_node_index level col row ∧
      calculate_node_index level col row < calculate_number_nodes (level + 1)) ∧
    (∀ k, calculate_number_nodes level ≤ k →
      k < calculate_number_nodes (level + 1) →
      ∃ c r, c < 2 ^ level ∧ r < 2 ^ level ∧
        calculate_node_index level c r = k) := by
  refine ⟨rfl, ?_, calculate_node_index_range hc hr, ?_⟩
  · intro l' c' r' hc' hr' heq
    exact calculate_node_index_inj hc hr hc' hr' heq
  · intro k h1 h2
    exact calculate_node_index_surj h1 h2

/-- C4 witness at `level = 2`, `col = 3`, `row = 1`. -/
theorem claim_C4_witness :
    (3 < 2 ^ 2 ∧ 1 < 2 ^ 2) ∧
    (calculate_node_index 2 3 1 =
        calculate_number_nodes 2 + (1 <<< 2) + 3 ∧
      (∀ l' c' r', c' < 2 ^ l' → r' < 2 ^ l' →
        calculate_node_index 2 3 1 = calculate_node_index l' c' r' →
        2 = l' ∧ 3 = c' ∧ 1 = r') ∧
      (calculate_number_nodes 2 ≤ calculate_node_index 2 3 1 ∧
        calculate_node_index 2 3 1 < calculate_number_nodes 3) ∧
      (∀ k, calculate_number_nodes 2 ≤ k → k < calculate_number_nodes 3 →
        ∃ c r, c < 2 ^ 2 ∧ r < 2 ^ 2 ∧ calculate_node_index 2 c r = k)) :=
  ⟨⟨by decide, by decide⟩, claim_C4 2 3 1 (by decide) (by decide)⟩

/-- C8: `calculate_number_nodes(level)` equals `(4^level - 1) / 3`, and
consecutive values differ by exactly `4^level`. -/
theorem claim_C8 (level : Nat) :
    calculate_number_nodes level = (4 ^ level - 1) / 3 ∧
    calculate_number_nodes (level + 1) - calculate_number_nodes level =
      4 ^ level := by
  refine ⟨calculate_number_nodes_eq level, ?_⟩
  rw [calculate_number_nodes_succ]
  exact Nat.add_sub_cancel_left (calculate_number_nodes level) (4 ^ level)

/-- C2: when the start node's box classifies as Inside, the frustum
collection is exactly the pre-order enumeration of the present payloads of
the whole subtree, whatever the classification does on descendants; when it
classifies as Outside, the collection is empty. -/
theorem claim_C2 (arr : List QNode) (cs : BBox3 → ClipStatus)
    (fuel idx : Nat) (prev : List Int) :
    (cs (nodeAtSlot arr idx).bbox = ClipStatus.inside →
      collect_by_frustum arr cs fuel idx prev =
        (subtreeList arr fuel idx).filterMap (payloadOf arr)) ∧
    (cs (nodeAtSlot arr idx).bbox = ClipStatus.outside →
      collect_by_frustum arr cs fuel idx prev = []) := by
  constructor
  · intro hcs
    cases fuel with
    | zero => simp [collect_by_frustum, collectFrustumRec, subtreeList]
    | succ fuel =>
        unfold collect_by_frustum collectFrustumRec
        simp only [hcs]
        rw [collectAllRec_eq]
        simp
  · intro hcs
    cases fuel with
    | zero => simp [collect_by_frustum, collectFrustumRec]
    | succ fuel =>
        unfold collect_by_frustum collectFrustumRec
        simp only [hcs]

/-- C2 witness: on the concrete 5-node store, an all-Inside classification
collects all five payloads in pre-order (and the stale previous contents
are discarded), and an all-Outside classification collects nothing. -/
theorem claim_C2_witness :
    ((fun _ : BBox3 => ClipStatus.inside) (nodeAtSlot demoArr 0).bbox =
        ClipStatus.inside ∧
      collect_by_frustum demoArr (fun _ => ClipStatus.inside) 2 0 [99] =
        [10, 20, 30, 40, 50]) ∧
    ((fun _ : BBox3 => ClipStatus.outside) (nodeAtSlot demoArr 0).bbox =
        ClipStatus.outside ∧
      collect_by_frustum demoArr (fun _ => ClipStatus.outside) 2 0 [99] = []) := by
  constructor
  · refine ⟨rfl, ?_⟩
    rw [(claim_C2 demoArr (fun _ => ClipStatus.inside) 2 0 [99]).1 rfl]
    decide
  · exact ⟨rfl, (claim_C2 demoArr (fun _ => ClipStatus.outside) 2 0 [99]).2 rfl⟩

/-- C3: each call to `collect_by_line_intersect` discards the previous
contents of the output; a segment failing the slab test at the start node
yields the empty collection; a segment passing it collects exactly the
present payloads of the nodes all of whose ancestors up to the start node
pass the slab test, in pre-order. -/
theorem claim_C3 (arr : List QNode) (line : Line3) (fuel idx : Nat) :
    (∀ prev, collect_by_line_intersect arr line fuel idx prev =
      collect_by_line_intersect arr line fuel idx []) ∧
    (test_intersection (nodeAtSlot arr idx).bbox line = false →
      ∀ prev, collect_by_line_intersect arr line fuel idx prev = []) ∧
    (test_intersection (nodeAtSlot arr idx).bbox line = true →
      ∀ prev, collect_by_line_intersect arr line fuel idx prev =
        linePayloads arr line fuel idx) := by
  refine ⟨fun prev => rfl, ?_, ?_⟩
  · intro ht prev
    cases fuel with
    | zero => simp [collect_by_line_intersect, collectLineRec]
    | succ fuel =>
        unfold collect_by_line_intersect collectLineRec
        simp only [ht]
        simp
  · intro ht prev
    unfold collect_by_line_intersect
    rw [collectLineRec_paths arr line fuel idx [] [] (by intro j hj; simp at hj)]
    simp [linePayloads]

set_option maxHeartbeats 4000000 in
/-- C3 witness: on the concrete 5-node store, a segment outside the root
box collects nothing (discarding stale contents), and the diagonal segment
through the center collects every payload along intersected chains. -/
theorem claim_C3_witness :
    (test_intersection (nodeAtSlot demoArr 0).bbox demoLineOut = false ∧
      collect_by_line_intersect demoArr demoLineOut 2 0 [7] = []) ∧
    (test_intersection (nodeAtSlot demoArr 0).bbox demoLineIn = true ∧
      collect_by_line_intersect demoArr demoLineIn 2 0 [7] =
        linePayloads demoArr demoLineIn 2 0) := by
  have hout : test_intersection (nodeAtSlot demoArr 0).bbox demoLineOut = false := by
    norm_num [test_intersection, slabAxis, kRelTolerance, nodeAtSlot, demoArr,
      demoLineOut]
  have hin : test_intersection (nodeAtSlot demoArr 0).bbox demoLineIn = true := by
    norm_num [test_intersection, slabAxis, kRelTolerance, nodeAtSlot, demoArr,
      demoLineIn]
  exact ⟨⟨hout, (claim_C3 demoArr demoLineOut 2 0).2.1 hout [7]⟩,
    ⟨hin, (claim_C3 demoArr demoLineIn 2 0).2.2 hin [7]⟩⟩

/-- C10: both collectors emit payloads in depth-first pre-order with the
fixed child order 0,1,2,3: every collection they produce is a sublist of
the pre-order enumeration of the subtree's present payloads. -/
theorem claim_C10 (arr : List QNode) (cs : BBox3 → ClipStatus) (line : Line3)
    (fuel idx : Nat) (prev1 prev2 : List Int) :
    List.Sublist (collect_by_frustum arr cs fuel idx prev1)
      ((subtreeList arr fuel idx).filterMap (payloadOf arr)) ∧
    List.Sublist (collect_by_line_intersect arr line fuel idx prev2)
      ((subtreeList arr fuel idx).filterMap (payloadOf arr)) := by
  have hall : collectAllRec arr fuel idx [] =
      (subtreeList arr fuel idx).filterMap (payloadOf arr) := by
    rw [collectAllRec_eq]
    simp
  constructor
  · have := collectFrustumRec_sublist arr cs fuel idx [] [] (List.Sublist.refl [])
    rw [hall] at this
    exact this
  · have := collectLineRec_sublist arr line fuel idx [] [] (List.Sublist.refl [])
    rw [hall] at this
    exact this

end QtreeSpec
